import Mathlib

/-!
# Event ticket booking system — verification development

Shallow embedding of the booking core (`BookingService` together with the
`Event`, `Booking` and `WaitingList` Sequelize models) of the event ticket
booking repository, and proofs about the spec's claims.

Modelling conventions:
* Database tables are Lean lists kept in insertion order; a Sequelize
  `findOne` without an `ORDER BY` clause returns the first matching row in
  insertion order (rowid order on the default backends).
* `findOne` with `ORDER BY position ASC/DESC LIMIT 1` returns a matching row
  of minimal/maximal `position` (first such row on ties).
* UUID primary keys are modelled by a fresh-id counter `nextId` shared by all
  tables; JavaScript numbers that hold ticket counts and queue positions are
  modelled as `Int`.
* Every service operation runs inside the per-event `AsyncLock`, so each call
  is one atomic state transition; an execution is a list of operations folded
  over the initial (empty-database) state.
* The `waiting_lists` table carries a unique `(eventId, position)` index
  (README schema, migration, model file): `WaitingList.create` at a position
  already present for the event raises the storage layer's
  unique-constraint error, which `bookTicket` rethrows after the Booking row
  was already inserted (there is no surrounding transaction).
* Wall-clock timestamps (`bookedAt`, `timestamp`, date formatting) carry no
  allocation-relevant information and are omitted from the model.
-/

namespace TicketSystem

/-- Booking statuses: the `ENUM("confirmed", "waiting", "cancelled")` of the
`Booking` model. -/
inductive BStatus where
  | confirmed
  | waiting
  | cancelled
deriving DecidableEq, BEq, Repr

/-- Waiting-list statuses: the `ENUM("waiting", "assigned")` of the
`WaitingList` model. -/
inductive WStatus where
  | waiting
  | assigned
deriving DecidableEq, BEq, Repr

/-- A row of the `events` table. -/
structure Event where
  id : Nat
  name : String
  totalTickets : Int
  availableTickets : Int
deriving DecidableEq, Repr

/-- A row of the `bookings` table.  `position` is set only on waiting
bookings (`null` otherwise). -/
structure Booking where
  id : Nat
  eventId : Nat
  userId : String
  status : BStatus
  position : Option Int
deriving DecidableEq, Repr

/-- A row of the `waiting_lists` table. -/
structure WLEntry where
  id : Nat
  eventId : Nat
  userId : String
  position : Int
  status : WStatus
deriving DecidableEq, Repr

/-- The whole database, each table in insertion order, plus the fresh-id
counter standing in for UUID generation. -/
structure DBState where
  events : List Event
  bookings : List Booking
  waiting : List WLEntry
  nextId : Nat
deriving DecidableEq, Repr

/-- Error message thrown when an id argument is missing (falsy). -/
def errRequired : String := "Event ID and User ID are required"

/-- Error message of the duplicate-booking check in `bookTicket`. -/
def errDuplicate : String := "User already has active booking for this event"

/-- Error message when an event id is unknown. -/
def errEventNotFound : String := "Event not found"

/-- Error message when `cancelBooking` finds no confirmed booking. -/
def errNoConfirmed : String := "No confirmed booking found for this user"

/-- Error raised by the storage layer when `WaitingList.create` violates the
unique `(eventId, position)` index; the service rethrows it. -/
def errUniqueViolation : String := "SequelizeUniqueConstraintError: Validation Error"

/-- `Event.findByPk(eventId)`. -/
def findEvent (s : DBState) (e : Nat) : Option Event :=
  s.events.find? fun ev => ev.id == e

/-- `event.decrement("availableTickets", { by: 1 })`: an SQL update of the row
with this primary key. -/
def decAvailable (s : DBState) (e : Nat) : DBState :=
  { s with events := s.events.map fun ev =>
      if ev.id == e then { ev with availableTickets := ev.availableTickets - 1 } else ev }

/-- `event.increment("availableTickets", { by: 1 })`. -/
def incAvailable (s : DBState) (e : Nat) : DBState :=
  { s with events := s.events.map fun ev =>
      if ev.id == e then { ev with availableTickets := ev.availableTickets + 1 } else ev }

/-- `Booking.findOne({ where: { eventId, userId } })`: first matching row in
insertion order, any status. -/
def findBookingByPair (s : DBState) (e : Nat) (u : String) : Option Booking :=
  s.bookings.find? fun b => b.eventId == e && b.userId == u

/-- `Booking.findOne({ where: { eventId, userId, status: "confirmed" } })`. -/
def findConfirmedBooking (s : DBState) (e : Nat) (u : String) : Option Booking :=
  s.bookings.find? fun b => b.eventId == e && b.userId == u && b.status == BStatus.confirmed

/-- `Booking.findOne({ where: { eventId, userId, status: "waiting" } })`. -/
def findWaitingBooking (s : DBState) (e : Nat) (u : String) : Option Booking :=
  s.bookings.find? fun b => b.eventId == e && b.userId == u && b.status == BStatus.waiting

/-- `booking.update({ status })`: an SQL update of the booking row with this
primary key. -/
def setBookingStatus (s : DBState) (bid : Nat) (st : BStatus) : DBState :=
  { s with bookings := s.bookings.map fun b =>
      if b.id == bid then { b with status := st } else b }

/-- `Booking.create({...})`: appends a fresh row and returns the instance. -/
def createBooking (s : DBState) (e : Nat) (u : String) (st : BStatus)
    (pos : Option Int) : Booking × DBState :=
  let b : Booking := ⟨s.nextId, e, u, st, pos⟩
  (b, { s with bookings := s.bookings ++ [b], nextId := s.nextId + 1 })

/-- `WaitingList.create({...})`: the raw row insert, applicable only when the
unique `(eventId, position)` index accepts it (see `wlPositionTaken`). -/
def createWLEntry (s : DBState) (e : Nat) (u : String) (pos : Int) : DBState :=
  { s with waiting := s.waiting ++ [⟨s.nextId, e, u, pos, WStatus.waiting⟩],
           nextId := s.nextId + 1 }

/-- The unique `(eventId, position)` index of `waiting_lists`: an insert at
`pos` is rejected when any row of the event already carries that position
(rows are never deleted, and promoted rows keep their position).  The
bookings insert just before does not touch this table, so the check reads
the waiting table of the pre-call state. -/
def wlPositionTaken (s : DBState) (e : Nat) (pos : Int) : Bool :=
  s.waiting.any fun w2 => w2.eventId == e && w2.position == pos

/-- The `where: { eventId, status: "waiting" }` filter on the waiting list. -/
def activeEntry (e : Nat) (w : WLEntry) : Bool :=
  w.eventId == e && w.status == WStatus.waiting

/-- `ORDER BY position ASC LIMIT 1`: a row of minimal position, first row on
ties. -/
def pickMinPos : List WLEntry → Option WLEntry
  | [] => none
  | w :: ws =>
    match pickMinPos ws with
    | none => some w
    | some m => if w.position ≤ m.position then some w else some m

/-- `ORDER BY position DESC LIMIT 1`: a row of maximal position, first row on
ties. -/
def pickMaxPos : List WLEntry → Option WLEntry
  | [] => none
  | w :: ws =>
    match pickMaxPos ws with
    | none => some w
    | some m => if m.position ≤ w.position then some w else some m

/-- `WaitingList.findOne({ where: { eventId, status: "waiting" }, order:
[["position", "ASC"]] })`. -/
def findEarliestWaiting (s : DBState) (e : Nat) : Option WLEntry :=
  pickMinPos (s.waiting.filter (activeEntry e))

/-- `BookingService._getNextWaitingPosition`: one past the maximal position
among still-waiting entries of the event, `1` when none. -/
def nextWaitingPosition (s : DBState) (e : Nat) : Int :=
  match pickMaxPos (s.waiting.filter (activeEntry e)) with
  | none => 1
  | some w => w.position + 1

/-- `WaitingList.update({ status: "assigned" }, { where: { eventId, userId }
})`: updates every row of the pair. -/
def markAssigned (s : DBState) (e : Nat) (u : String) : DBState :=
  { s with waiting := s.waiting.map fun w =>
      if w.eventId == e && w.userId == u then { w with status := WStatus.assigned } else w }

/-- `BookingService.initializeEvent`. -/
def initializeEvent (s : DBState) (name : String) (total : Int) :
    Except String Event × DBState :=
  if name = "" then (.error "Event name must be a non-empty string", s)
  else if total < 1 then (.error "Total tickets must be a positive integer", s)
  else
    let ev : Event := ⟨s.nextId, name, total, total⟩
    (.ok ev, { s with events := s.events ++ [ev], nextId := s.nextId + 1 })

/-- `BookingService.bookTicket`, the whole body of the lock-protected
closure taken as one atomic transition. -/
def bookTicket (s : DBState) (e : Nat) (u : String) :
    Except String Booking × DBState :=
  if u = "" then (.error errRequired, s)
  else
    let dup : Bool :=
      match findBookingByPair s e u with
      | some b => b.status != BStatus.cancelled
      | none => false
    if dup then (.error errDuplicate, s)
    else
      match findEvent s e with
      | none => (.error errEventNotFound, s)
      | some ev =>
        if 0 < ev.availableTickets then
          let s1 := decAvailable s e
          let r := createBooking s1 e u BStatus.confirmed none
          (.ok r.1, r.2)
        else
          let pos := nextWaitingPosition s e
          let r := createBooking s e u BStatus.waiting (some pos)
          if wlPositionTaken s e pos then (.error errUniqueViolation, r.2)
          else (.ok r.1, createWLEntry r.2 e u pos)

/-- `BookingService._assignWaitingUserToTicket`: mark every waiting-list row
of the pair assigned, then confirm the first waiting booking of the pair, if
any. -/
def assignWaitingUser (s : DBState) (e : Nat) (u : String) :
    Option Booking × DBState :=
  let s1 := markAssigned s e u
  match findWaitingBooking s1 e u with
  | none => (none, s1)
  | some b => (some { b with status := BStatus.confirmed },
               setBookingStatus s1 b.id BStatus.confirmed)

/-- `BookingService.cancelBooking`, the lock-protected closure as one atomic
transition.  When the event row is missing the JavaScript code crashes with a
`TypeError` after the status flip; this is modelled as an error result that
keeps the flip applied. -/
def cancelBooking (s : DBState) (e : Nat) (u : String) :
    Except String (Booking × Option Booking) × DBState :=
  if u = "" then (.error errRequired, s)
  else
    match findConfirmedBooking s e u with
    | none => (.error errNoConfirmed, s)
    | some b =>
      let s1 := setBookingStatus s b.id BStatus.cancelled
      match findEvent s1 e with
      | none => (.error errEventNotFound, s1)
      | some _ =>
        let s2 := incAvailable s1 e
        match findEarliestWaiting s2 e with
        | none => (.ok ({ b with status := BStatus.cancelled }, none), s2)
        | some w =>
          let r := assignWaitingUser s2 e w.userId
          let s4 := decAvailable r.2 e
          (.ok ({ b with status := BStatus.cancelled }, r.1), s4)

/-- The aggregate returned by `getEventStatus` (the wall-clock `timestamp`
field is omitted from the model). -/
structure EventStatusView where
  eventId : Nat
  eventName : String
  totalTickets : Int
  availableTickets : Int
  bookedTickets : Nat
  waitingListCount : Nat
deriving DecidableEq, Repr

/-- `BookingService.getEventStatus`: read-only; counts confirmed bookings
from the `bookings` table and waiting people from the `waiting_lists`
table. -/
def getEventStatus (s : DBState) (e : Nat) : Except String EventStatusView :=
  match findEvent s e with
  | none => .error errEventNotFound
  | some ev =>
    .ok ⟨ev.id, ev.name, ev.totalTickets, ev.availableTickets,
      s.bookings.countP (fun b => b.eventId == e && b.status == BStatus.confirmed),
      s.waiting.countP (fun w => w.eventId == e && w.status == WStatus.waiting)⟩

/-- One mutating API call. -/
inductive Op where
  | init (name : String) (total : Int)
  | book (e : Nat) (u : String)
  | cancel (e : Nat) (u : String)
deriving DecidableEq, Repr

/-- Apply one call; a failed call leaves the returned state. -/
def step (s : DBState) : Op → DBState
  | .init n t => (initializeEvent s n t).2
  | .book e u => (bookTicket s e u).2
  | .cancel e u => (cancelBooking s e u).2

/-- The empty database. -/
def initState : DBState := ⟨[], [], [], 0⟩

/-- Execute a sequence of calls from the empty database. -/
def run (ops : List Op) : DBState := ops.foldl step initState

/-- A state is reachable when some call sequence produces it. -/
def Reachable (s : DBState) : Prop := ∃ ops : List Op, run ops = s

/-- Number of confirmed bookings of an event. -/
def confirmedCount (s : DBState) (e : Nat) : Nat :=
  s.bookings.countP fun b => b.eventId == e && b.status == BStatus.confirmed

instance : LawfulBEq BStatus where
  eq_of_beq := by intro a b h; cases a <;> cases b <;> first | rfl | exact absurd h (by decide)
  rfl := by intro a; cases a <;> rfl

instance : LawfulBEq WStatus where
  eq_of_beq := by intro a b h; cases a <;> cases b <;> first | rfl | exact absurd h (by decide)
  rfl := by intro a; cases a <;> rfl

/-- `find?` by event id commutes with a map that preserves ids. -/
theorem find?_map_id_preserving (f : Event → Event) (hf : ∀ ev, (f ev).id = ev.id)
    (e : Nat) (l : List Event) :
    (l.map f).find? (fun ev => ev.id == e) = (l.find? (fun ev => ev.id == e)).map f := by
  induction l with
  | nil => rfl
  | cons a l ih =>
    rw [List.map_cons]
    simp only [List.find?_cons, hf]
    cases h : (a.id == e) with
    | true => simp [h]
    | false => simp [h, ih]

/-- Effect of `decAvailable` on an event lookup. -/
theorem findEvent_decAvailable (s : DBState) (e k : Nat) :
    findEvent (decAvailable s e) k =
      (findEvent s k).map (fun ev =>
        if ev.id == e then { ev with availableTickets := ev.availableTickets - 1 } else ev) := by
  unfold findEvent decAvailable
  refine find?_map_id_preserving _ (fun ev => ?_) k s.events
  by_cases hc : ((ev.id == e) : Bool) = true <;> simp [hc]

/-- Effect of `incAvailable` on an event lookup. -/
theorem findEvent_incAvailable (s : DBState) (e k : Nat) :
    findEvent (incAvailable s e) k =
      (findEvent s k).map (fun ev =>
        if ev.id == e then { ev with availableTickets := ev.availableTickets + 1 } else ev) := by
  unfold findEvent incAvailable
  refine find?_map_id_preserving _ (fun ev => ?_) k s.events
  by_cases hc : ((ev.id == e) : Bool) = true <;> simp [hc]

/-- A maximal-position row belongs to the list. -/
theorem pickMaxPos_mem {l : List WLEntry} {m : WLEntry} (h : pickMaxPos l = some m) :
    m ∈ l := by
  induction l generalizing m with
  | nil => simp [pickMaxPos] at h
  | cons w ws ih =>
    cases hws : pickMaxPos ws with
    | none =>
      simp only [pickMaxPos, hws, Option.some.injEq] at h
      subst h; exact List.mem_cons_self w ws
    | some q =>
      simp only [pickMaxPos, hws] at h
      by_cases hle : q.position ≤ w.position
      · rw [if_pos hle, Option.some.injEq] at h
        subst h; exact List.mem_cons_self w ws
      · rw [if_neg hle, Option.some.injEq] at h
        subst h; exact List.mem_cons_of_mem w (ih hws)

/-- `pickMaxPos` is `none` only on the empty list. -/
theorem pickMaxPos_eq_none {l : List WLEntry} (h : pickMaxPos l = none) : l = [] := by
  cases l with
  | nil => rfl
  | cons w ws =>
    exfalso
    cases hws : pickMaxPos ws with
    | none => simp only [pickMaxPos, hws] at h; exact Option.noConfusion h
    | some q =>
      simp only [pickMaxPos, hws] at h
      by_cases hle : q.position ≤ w.position
      · rw [if_pos hle] at h; cases h
      · rw [if_neg hle] at h; cases h

/-- Every row's position is at most the maximal row's position. -/
theorem pickMaxPos_ge {l : List WLEntry} {m : WLEntry} (h : pickMaxPos l = some m) :
    ∀ w ∈ l, w.position ≤ m.position := by
  induction l generalizing m with
  | nil => simp [pickMaxPos] at h
  | cons w ws ih =>
    intro x hx
    cases hws : pickMaxPos ws with
    | none =>
      simp only [pickMaxPos, hws, Option.some.injEq] at h
      subst h
      rcases List.mem_cons.mp hx with hxw | hxs
      · exact hxw ▸ le_refl _
      · rw [pickMaxPos_eq_none hws] at hxs; cases hxs
    | some q =>
      simp only [pickMaxPos, hws] at h
      by_cases hle : q.position ≤ w.position
      · rw [if_pos hle, Option.some.injEq] at h
        subst h
        rcases List.mem_cons.mp hx with hxw | hxs
        · exact hxw ▸ le_refl _
        · exact le_trans (ih hws x hxs) hle
      · rw [if_neg hle, Option.some.injEq] at h
        subst h
        rcases List.mem_cons.mp hx with hxw | hxs
        · exact hxw ▸ le_of_not_le hle
        · exact ih hws x hxs

/-- A minimal-position row belongs to the list. -/
theorem pickMinPos_mem {l : List WLEntry} {m : WLEntry} (h : pickMinPos l = some m) :
    m ∈ l := by
  induction l generalizing m with
  | nil => simp [pickMinPos] at h
  | cons w ws ih =>
    cases hws : pickMinPos ws with
    | none =>
      simp only [pickMinPos, hws, Option.some.injEq] at h
      subst h; exact List.mem_cons_self w ws
    | some q =>
      simp only [pickMinPos, hws] at h
      by_cases hle : w.position ≤ q.position
      · rw [if_pos hle, Option.some.injEq] at h
        subst h; exact List.mem_cons_self w ws
      · rw [if_neg hle, Option.some.injEq] at h
        subst h; exact List.mem_cons_of_mem w (ih hws)

/-- `pickMinPos` is `none` only on the empty list. -/
theorem pickMinPos_eq_none {l : List WLEntry} (h : pickMinPos l = none) : l = [] := by
  cases l with
  | nil => rfl
  | cons w ws =>
    exfalso
    cases hws : pickMinPos ws with
    | none => simp only [pickMinPos, hws] at h; exact Option.noConfusion h
    | some q =>
      simp only [pickMinPos, hws] at h
      by_cases hle : w.position ≤ q.position
      · rw [if_pos hle] at h; cases h
      · rw [if_neg hle] at h; cases h

/-- The minimal row's position is at most every row's position. -/
theorem pickMinPos_le {l : List WLEntry} {m : WLEntry} (h : pickMinPos l = some m) :
    ∀ w ∈ l, m.position ≤ w.position := by
  induction l generalizing m with
  | nil => simp [pickMinPos] at h
  | cons w ws ih =>
    intro x hx
    cases hws : pickMinPos ws with
    | none =>
      simp only [pickMinPos, hws, Option.some.injEq] at h
      subst h
      rcases List.mem_cons.mp hx with hxw | hxs
      · exact hxw ▸ le_refl _
      · rw [pickMinPos_eq_none hws] at hxs; cases hxs
    | some q =>
      simp only [pickMinPos, hws] at h
      by_cases hle : w.position ≤ q.position
      · rw [if_pos hle, Option.some.injEq] at h
        subst h
        rcases List.mem_cons.mp hx with hxw | hxs
        · exact hxw ▸ le_refl _
        · exact le_trans hle (ih hws x hxs)
      · rw [if_neg hle, Option.some.injEq] at h
        subst h
        rcases List.mem_cons.mp hx with hxw | hxs
        · exact hxw ▸ le_of_not_le hle
        · exact ih hws x hxs

/-- The duplicate check of `bookTicket` passes whenever every booking of the
pair is cancelled (the first row of the pair, if any, is then cancelled). -/
theorem dup_check_false_of_all_cancelled (s : DBState) (e : Nat) (u : String)
    (hnoactive : ∀ b ∈ s.bookings, b.eventId = e → b.userId = u → b.status = BStatus.cancelled) :
    (match findBookingByPair s e u with
      | some b => b.status != BStatus.cancelled
      | none => false) = false := by
  cases hfb : findBookingByPair s e u with
  | none => rfl
  | some b =>
    have hb := List.mem_of_find?_eq_some hfb
    have hp := List.find?_some hfb
    simp only [Bool.and_eq_true, beq_iff_eq] at hp
    have hst := hnoactive b hb hp.1 hp.2
    show (b.status != BStatus.cancelled) = false
    rw [hst]
    rfl

/-- Every still-waiting position of the event sits strictly below the next
waiting position handed out. -/
theorem pos_lt_nextWaitingPosition (s : DBState) (e : Nat) :
    ∀ w ∈ s.waiting, activeEntry e w = true → w.position < nextWaitingPosition s e := by
  intro w hw hact
  unfold nextWaitingPosition
  cases hpm : pickMaxPos (s.waiting.filter (activeEntry e)) with
  | none =>
    exfalso
    have : w ∈ s.waiting.filter (activeEntry e) := List.mem_filter.mpr ⟨hw, hact⟩
    rw [pickMaxPos_eq_none hpm] at this
    cases this
  | some m =>
    have : w ∈ s.waiting.filter (activeEntry e) := List.mem_filter.mpr ⟨hw, hact⟩
    have hle := pickMaxPos_ge hpm w this
    show w.position < m.position + 1
    omega

/-- Call sequence reaching a drained queue: `u2` waits at position 1, gets
promoted, leaving only an assigned row at position 1, and the position
counter resets to 1. -/
def c2pre : List Op :=
  [Op.init "E" 1, Op.book 0 "u1", Op.book 0 "u2", Op.cancel 0 "u1"]

/-- C2 counterexample: on the reachable post-drain state, requester `u3`
satisfies the claim's premises (event exists and is sold out, `u3` holds no
booking), yet the sold-out branch does not enqueue: the computed position 1
collides with the promoted row, the insert is rejected by the unique
`(eventId, position)` index, and `bookTicket` fails after inserting the
Booking row — no queue entry is created and neither branch completes. -/
theorem c2_waiting_branch_insert_rejected :
    findEvent (run c2pre) 0 = some ⟨0, "E", 1, 0⟩ ∧
    ((run c2pre).bookings.countP (fun b => b.eventId == 0 && b.userId == "u3")) = 0 ∧
    (bookTicket (run c2pre) 0 "u3").1 = Except.error errUniqueViolation ∧
    (bookTicket (run c2pre) 0 "u3").2.waiting = (run c2pre).waiting ∧
    (bookTicket (run c2pre) 0 "u3").2.bookings =
      (run c2pre).bookings ++ [⟨4, 0, "u3", BStatus.waiting, some 1⟩] :=
  ⟨rfl, by decide, rfl, rfl, rfl⟩

/-- C2 (amended): on an existing event where the requester holds no active
booking, `bookTicket` either (tickets available) decrements
`availableTickets` by exactly one and returns a confirmed booking with null
position, touching no queue row, or (sold out, and no queue row of the event
already carries the computed position) returns a waiting booking positioned
one past the maximal still-waiting position (1 when no active entry exists),
creating a matching queue entry and leaving the event row untouched; if the
computed position collides with an existing queue row of the event —
possible once promotions have drained the active queue — the call instead
fails with the unique-constraint error after inserting the waiting Booking
row, creating no queue entry. -/
theorem c2_bookTicket_branches (s : DBState) (e : Nat) (u : String) (ev : Event)
    (hu : u ≠ "")
    (hev : findEvent s e = some ev)
    (hnoactive : ∀ b ∈ s.bookings, b.eventId = e → b.userId = u → b.status = BStatus.cancelled) :
    (0 < ev.availableTickets →
      ∃ bk s₂, bookTicket s e u = (.ok bk, s₂) ∧
        bk.status = BStatus.confirmed ∧ bk.position = none ∧
        bk.eventId = e ∧ bk.userId = u ∧
        s₂.waiting = s.waiting ∧
        s₂.bookings = s.bookings ++ [bk] ∧
        findEvent s₂ e = some { ev with availableTickets := ev.availableTickets - 1 }) ∧
    (ev.availableTickets ≤ 0 →
      (∀ w ∈ s.waiting, w.eventId = e → w.position ≠ nextWaitingPosition s e) →
      ∃ bk s₂, bookTicket s e u = (.ok bk, s₂) ∧
        bk.status = BStatus.waiting ∧
        bk.eventId = e ∧ bk.userId = u ∧
        bk.position = some (nextWaitingPosition s e) ∧
        (∀ w ∈ s.waiting, activeEntry e w = true → w.position < nextWaitingPosition s e) ∧
        ((∀ w ∈ s.waiting, activeEntry e w = false) → nextWaitingPosition s e = 1) ∧
        ((∃ w ∈ s.waiting, activeEntry e w = true) →
          ∃ w ∈ s.waiting, activeEntry e w = true ∧
            nextWaitingPosition s e = w.position + 1 ∧
            ∀ x ∈ s.waiting, activeEntry e x = true → x.position ≤ w.position) ∧
        s₂.events = s.events ∧
        s₂.bookings = s.bookings ++ [bk] ∧
        s₂.waiting = s.waiting ++ [⟨s.nextId + 1, e, u, nextWaitingPosition s e, WStatus.waiting⟩]) ∧
    (ev.availableTickets ≤ 0 →
      (∃ w ∈ s.waiting, w.eventId = e ∧ w.position = nextWaitingPosition s e) →
      bookTicket s e u = (.error errUniqueViolation,
        ⟨s.events, s.bookings ++ [⟨s.nextId, e, u, BStatus.waiting,
          some (nextWaitingPosition s e)⟩], s.waiting, s.nextId + 1⟩)) := by
  have hdup := dup_check_false_of_all_cancelled s e u hnoactive
  have hev' : s.events.find? (fun x => x.id == e) = some ev := hev
  have hide0 := List.find?_some hev'
  have hide : ((ev.id == e) : Bool) = true := hide0
  refine ⟨?_, ?_, ?_⟩
  · intro hpos
    refine ⟨⟨s.nextId, e, u, BStatus.confirmed, none⟩,
      ⟨(decAvailable s e).events, s.bookings ++ [⟨s.nextId, e, u, BStatus.confirmed, none⟩],
        s.waiting, s.nextId + 1⟩, ?_, rfl, rfl, rfl, rfl, rfl, rfl, ?_⟩
    · unfold bookTicket
      rw [if_neg hu]
      simp only [hdup, hev, Bool.false_eq_true, if_false, if_pos hpos]
      rfl
    · show findEvent (decAvailable s e) e = _
      rw [findEvent_decAvailable, hev, Option.map_some']
      simp [hide]
  · intro hneg hfresh
    have hcol : wlPositionTaken s e (nextWaitingPosition s e) = false := by
      unfold wlPositionTaken
      rw [List.any_eq_false]
      intro w2 hw2 hp
      simp only [Bool.and_eq_true, beq_iff_eq] at hp
      exact hfresh w2 hw2 hp.1 hp.2
    refine ⟨⟨s.nextId, e, u, BStatus.waiting, some (nextWaitingPosition s e)⟩,
      ⟨s.events, s.bookings ++ [⟨s.nextId, e, u, BStatus.waiting, some (nextWaitingPosition s e)⟩],
        s.waiting ++ [⟨s.nextId + 1, e, u, nextWaitingPosition s e, WStatus.waiting⟩],
        s.nextId + 2⟩, ?_, rfl, rfl, rfl, rfl, ?_, ?_, ?_, rfl, rfl, rfl⟩
    · unfold bookTicket
      rw [if_neg hu]
      simp only [hdup, hev, Bool.false_eq_true, if_false, if_neg (not_lt.mpr hneg)]
      rw [if_neg (show ¬ wlPositionTaken s e (nextWaitingPosition s e) = true by simp [hcol])]
      rfl
    · intro w hw hact
      exact pos_lt_nextWaitingPosition s e w hw hact
    · intro hall
      unfold nextWaitingPosition
      cases hpm : pickMaxPos (s.waiting.filter (activeEntry e)) with
      | none => rfl
      | some m =>
        exfalso
        have hm := pickMaxPos_mem hpm
        rw [List.mem_filter] at hm
        rw [hall m hm.1] at hm
        cases hm.2
    · intro hex
      rcases hex with ⟨w, hw, hact⟩
      cases hpm : pickMaxPos (s.waiting.filter (activeEntry e)) with
      | none =>
        exfalso
        have : w ∈ s.waiting.filter (activeEntry e) := List.mem_filter.mpr ⟨hw, hact⟩
        rw [pickMaxPos_eq_none hpm] at this
        cases this
      | some m =>
        have hm := pickMaxPos_mem hpm
        rw [List.mem_filter] at hm
        refine ⟨m, hm.1, hm.2, ?_, ?_⟩
        · unfold nextWaitingPosition
          rw [hpm]
        · intro x hx hactx
          exact pickMaxPos_ge hpm x (List.mem_filter.mpr ⟨hx, hactx⟩)
  · intro hneg hexist
    have hcol : wlPositionTaken s e (nextWaitingPosition s e) = true := by
      unfold wlPositionTaken
      rw [List.any_eq_true]
      obtain ⟨w2, hw2, he2, hp2⟩ := hexist
      exact ⟨w2, hw2, by simp [he2, hp2]⟩
    unfold bookTicket
    rw [if_neg hu]
    simp only [hdup, hev, Bool.false_eq_true, if_false, if_neg (not_lt.mpr hneg)]
    rw [if_pos hcol]
    rfl

/-- C2 witness: a fresh event with 2 tickets, 1 available, and no bookings
or queue rows. -/
theorem c2_bookTicket_branches_witness :
    (0 < (⟨0, "E", 2, 1⟩ : Event).availableTickets →
      ∃ bk s₂, bookTicket ⟨[⟨0, "E", 2, 1⟩], [], [], 1⟩ 0 "u1" = (.ok bk, s₂) ∧
        bk.status = BStatus.confirmed ∧ bk.position = none ∧
        bk.eventId = 0 ∧ bk.userId = "u1" ∧
        s₂.waiting = ([] : List WLEntry) ∧
        s₂.bookings = ([] : List Booking) ++ [bk] ∧
        findEvent s₂ 0 = some ⟨0, "E", 2, 0⟩) ∧
    ((⟨0, "E", 2, 1⟩ : Event).availableTickets ≤ 0 →
      (∀ w ∈ ([] : List WLEntry), w.eventId = 0 →
        w.position ≠ nextWaitingPosition ⟨[⟨0, "E", 2, 1⟩], [], [], 1⟩ 0) →
      ∃ bk s₂, bookTicket ⟨[⟨0, "E", 2, 1⟩], [], [], 1⟩ 0 "u1" = (.ok bk, s₂) ∧
        bk.status = BStatus.waiting ∧
        bk.eventId = 0 ∧ bk.userId = "u1" ∧
        bk.position = some (nextWaitingPosition ⟨[⟨0, "E", 2, 1⟩], [], [], 1⟩ 0) ∧
        (∀ w ∈ ([] : List WLEntry), activeEntry 0 w = true →
          w.position < nextWaitingPosition ⟨[⟨0, "E", 2, 1⟩], [], [], 1⟩ 0) ∧
        ((∀ w ∈ ([] : List WLEntry), activeEntry 0 w = false) →
          nextWaitingPosition ⟨[⟨0, "E", 2, 1⟩], [], [], 1⟩ 0 = 1) ∧
        ((∃ w ∈ ([] : List WLEntry), activeEntry 0 w = true) →
          ∃ w ∈ ([] : List WLEntry), activeEntry 0 w = true ∧
            nextWaitingPosition ⟨[⟨0, "E", 2, 1⟩], [], [], 1⟩ 0 = w.position + 1 ∧
            ∀ x ∈ ([] : List WLEntry), activeEntry 0 x = true → x.position ≤ w.position) ∧
        s₂.events = [⟨0, "E", 2, 1⟩] ∧
        s₂.bookings = ([] : List Booking) ++ [bk] ∧
        s₂.waiting = ([] : List WLEntry) ++
          [⟨2, 0, "u1", nextWaitingPosition ⟨[⟨0, "E", 2, 1⟩], [], [], 1⟩ 0, WStatus.waiting⟩]) ∧
    ((⟨0, "E", 2, 1⟩ : Event).availableTickets ≤ 0 →
      (∃ w ∈ ([] : List WLEntry), w.eventId = 0 ∧
        w.position = nextWaitingPosition ⟨[⟨0, "E", 2, 1⟩], [], [], 1⟩ 0) →
      bookTicket ⟨[⟨0, "E", 2, 1⟩], [], [], 1⟩ 0 "u1" = (.error errUniqueViolation,
        ⟨[⟨0, "E", 2, 1⟩], ([] : List Booking) ++ [⟨1, 0, "u1", BStatus.waiting,
          some (nextWaitingPosition ⟨[⟨0, "E", 2, 1⟩], [], [], 1⟩ 0)⟩],
          ([] : List WLEntry), 2⟩)) :=
  c2_bookTicket_branches ⟨[⟨0, "E", 2, 1⟩], [], [], 1⟩ 0 "u1" ⟨0, "E", 2, 1⟩
    (by decide) (by decide) (by intro b hb; cases hb)

/-- C8: `cancelBooking` fails with `BookingNotFound` ("No confirmed booking
found for this user") exactly when the requester has no booking with status
confirmed for the event — a waiting or already-cancelled booking is not
cancellable and never silently succeeds — and on that failure the state is
returned unchanged. -/
theorem c8_cancel_not_found_iff (s : DBState) (e : Nat) (u : String) (hu : u ≠ "") :
    ((cancelBooking s e u).1 = .error errNoConfirmed ↔
      ∀ b ∈ s.bookings, b.eventId = e → b.userId = u → b.status ≠ BStatus.confirmed) ∧
    ((∀ b ∈ s.bookings, b.eventId = e → b.userId = u → b.status ≠ BStatus.confirmed) →
      (cancelBooking s e u).2 = s) := by
  have key : findConfirmedBooking s e u = none ↔
      ∀ b ∈ s.bookings, b.eventId = e → b.userId = u → b.status ≠ BStatus.confirmed := by
    unfold findConfirmedBooking
    rw [List.find?_eq_none]
    constructor
    · intro h b hb he1 hu1 hst
      exact h b hb (by simp [he1, hu1, hst])
    · intro h b hb hp
      simp only [Bool.and_eq_true, beq_iff_eq] at hp
      exact h b hb hp.1.1 hp.1.2 hp.2
  unfold cancelBooking
  rw [if_neg hu]
  cases hfc : findConfirmedBooking s e u with
  | none =>
    exact ⟨⟨fun _ => key.mp hfc, fun _ => rfl⟩, fun _ => rfl⟩
  | some b =>
    have hb := List.mem_of_find?_eq_some hfc
    have hp := List.find?_some hfc
    simp only [Bool.and_eq_true, beq_iff_eq] at hp
    have hrhs : ¬ ∀ x ∈ s.bookings, x.eventId = e → x.userId = u → x.status ≠ BStatus.confirmed :=
      fun h => h b hb hp.1.1 hp.1.2 hp.2
    have hneq : errEventNotFound ≠ errNoConfirmed := by decide
    cases hev : findEvent (setBookingStatus s b.id BStatus.cancelled) e with
    | none =>
      simp only [hev]
      exact ⟨⟨fun hres => absurd (Except.error.inj hres) hneq, fun hr => absurd hr hrhs⟩,
        fun hr => absurd hr hrhs⟩
    | some ev =>
      simp only [hev]
      cases hw : findEarliestWaiting (incAvailable (setBookingStatus s b.id BStatus.cancelled) e) e with
      | none =>
        simp only [hw]
        exact ⟨⟨fun hres => Except.noConfusion hres, fun hr => absurd hr hrhs⟩,
          fun hr => absurd hr hrhs⟩
      | some w =>
        simp only [hw]
        exact ⟨⟨fun hres => Except.noConfusion hres, fun hr => absurd hr hrhs⟩,
          fun hr => absurd hr hrhs⟩

/-- C8 witness: cancelling on the empty database fails with
`BookingNotFound` and mutates nothing. -/
theorem c8_cancel_not_found_iff_witness :
    ((cancelBooking initState 0 "u1").1 = .error errNoConfirmed ↔
      ∀ b ∈ initState.bookings, b.eventId = 0 → b.userId = "u1" → b.status ≠ BStatus.confirmed) ∧
    ((∀ b ∈ initState.bookings, b.eventId = 0 → b.userId = "u1" → b.status ≠ BStatus.confirmed) →
      (cancelBooking initState 0 "u1").2 = initState) :=
  c8_cancel_not_found_iff initState 0 "u1" (by decide)

/-- C10: when `cancelBooking` succeeds and the earliest active queue entry's
requester has no waiting Booking row, the queue entry is still marked
assigned and the compensating decrement still runs (net change of
`availableTickets` is zero), yet the assigned booking returned is `null`. -/
theorem c10_promotion_without_waiting_booking (s : DBState) (e : Nat) (u : String)
    (bk : Booking) (ev : Event) (wB : WLEntry)
    (hu : u ≠ "")
    (hbk : findConfirmedBooking s e u = some bk)
    (hev : findEvent s e = some ev)
    (hsel : findEarliestWaiting s e = some wB)
    (hnowait : ∀ b ∈ s.bookings, b.eventId = e → b.userId = wB.userId → b.status ≠ BStatus.waiting) :
    ∃ s₂ : DBState,
      cancelBooking s e u = (.ok ({ bk with status := BStatus.cancelled }, none), s₂) ∧
      (∀ w ∈ s₂.waiting, w.eventId = e → w.userId = wB.userId → w.status = WStatus.assigned) ∧
      ∃ ev₂, findEvent s₂ e = some ev₂ ∧ ev₂.availableTickets = ev.availableTickets := by
  have hev1 : findEvent (setBookingStatus s bk.id BStatus.cancelled) e = some ev := hev
  have hsel1 : findEarliestWaiting
      (incAvailable (setBookingStatus s bk.id BStatus.cancelled) e) e = some wB := hsel
  have hev' : s.events.find? (fun x => x.id == e) = some ev := hev
  have hide0 := List.find?_some hev'
  have hide : ((ev.id == e) : Bool) = true := hide0
  have hnofind : findWaitingBooking
      (markAssigned (incAvailable (setBookingStatus s bk.id BStatus.cancelled) e) e wB.userId)
      e wB.userId = none := by
    unfold findWaitingBooking
    rw [List.find?_eq_none]
    intro x hx
    have hx' : x ∈ s.bookings.map
        (fun b => if b.id == bk.id then { b with status := BStatus.cancelled } else b) := hx
    rw [List.mem_map] at hx'
    obtain ⟨b0, hb0, rfl⟩ := hx'
    by_cases hid : ((b0.id == bk.id) : Bool) = true
    · simp [hid]
    · simp only [hid, Bool.false_eq_true, if_false]
      intro hp
      simp only [Bool.and_eq_true, beq_iff_eq] at hp
      exact hnowait b0 hb0 hp.1.1 hp.1.2 hp.2
  refine ⟨decAvailable
      (markAssigned (incAvailable (setBookingStatus s bk.id BStatus.cancelled) e) e wB.userId) e,
    ?_, ?_, ?_⟩
  · unfold cancelBooking
    rw [if_neg hu]
    simp only [hbk, hev1, hsel1, assignWaitingUser, hnofind]
  · intro w hw hwe hwu
    have hw' : w ∈ s.waiting.map
        (fun x => if x.eventId == e && x.userId == wB.userId
          then { x with status := WStatus.assigned } else x) := hw
    rw [List.mem_map] at hw'
    obtain ⟨w0, hw0, rfl⟩ := hw'
    by_cases hg : ((w0.eventId == e && w0.userId == wB.userId) : Bool) = true
    · simp [hg]
    · exfalso
      rw [if_neg hg] at hwe hwu
      exact hg (by simp [hwe, hwu])
  · have hinner : findEvent
        (markAssigned (incAvailable (setBookingStatus s bk.id BStatus.cancelled) e) e wB.userId) e =
        some { ev with availableTickets := ev.availableTickets + 1 } := by
      have : findEvent (incAvailable (setBookingStatus s bk.id BStatus.cancelled) e) e =
          some { ev with availableTickets := ev.availableTickets + 1 } := by
        rw [findEvent_incAvailable, hev1, Option.map_some']
        simp [hide]
      exact this
    refine ⟨{ ev with availableTickets := ev.availableTickets + 1 - 1 }, ?_,
      by show ev.availableTickets + 1 - 1 = ev.availableTickets; omega⟩
    rw [findEvent_decAvailable, hinner, Option.map_some']
    simp [hide]

/-- C10 witness: one confirmed booking for `u1`, one waiting queue entry for
`u2` with no backing waiting booking. -/
theorem c10_promotion_without_waiting_booking_witness :
    ∃ s₂ : DBState,
      cancelBooking ⟨[⟨0, "E", 1, 0⟩], [⟨1, 0, "u1", BStatus.confirmed, none⟩],
          [⟨2, 0, "u2", 1, WStatus.waiting⟩], 3⟩ 0 "u1" =
        (.ok ({ (⟨1, 0, "u1", BStatus.confirmed, none⟩ : Booking) with
          status := BStatus.cancelled }, none), s₂) ∧
      (∀ w ∈ s₂.waiting, w.eventId = 0 → w.userId = "u2" → w.status = WStatus.assigned) ∧
      ∃ ev₂, findEvent s₂ 0 = some ev₂ ∧
        ev₂.availableTickets = (⟨0, "E", 1, 0⟩ : Event).availableTickets :=
  c10_promotion_without_waiting_booking
    ⟨[⟨0, "E", 1, 0⟩], [⟨1, 0, "u1", BStatus.confirmed, none⟩],
      [⟨2, 0, "u2", 1, WStatus.waiting⟩], 3⟩ 0 "u1"
    ⟨1, 0, "u1", BStatus.confirmed, none⟩ ⟨0, "E", 1, 0⟩ ⟨2, 0, "u2", 1, WStatus.waiting⟩
    (by decide) (by decide) (by decide) (by decide) (by decide)

/-- Call sequence exhibiting the duplicate-active-booking bug: book, cancel,
re-book, book again.  The final `book` passes the duplicate check because
`findOne({where:{eventId,userId}})` returns the first row of the pair in
insertion order — the old cancelled one. -/
def c1ops : List Op :=
  [Op.init "E" 1, Op.book 0 "u1", Op.cancel 0 "u1", Op.book 0 "u1", Op.book 0 "u1"]

/-- C1: the there-is-at-most-one-active-booking-per-pair invariant fails on a
reachable state: after book/cancel/re-book/book, requester `u1` holds a
confirmed and a waiting booking for event `0` simultaneously (two
non-cancelled rows). -/
theorem c1_duplicate_active_bookings :
    ((run c1ops).bookings.countP
      (fun b => b.eventId == 0 && b.userId == "u1" && b.status != BStatus.cancelled)) = 2 ∧
    ((run c1ops).bookings.countP
      (fun b => b.eventId == 0 && b.userId == "u1" && b.status == BStatus.confirmed)) = 1 ∧
    ((run c1ops).bookings.countP
      (fun b => b.eventId == 0 && b.userId == "u1" && b.status == BStatus.waiting)) = 1 := by
  decide

/-- Prefix sequence for the C7 counterexample: after it, `u1` holds one
active (confirmed) booking for event `0`, yet their first booking row is
cancelled. -/
def c7pre : List Op :=
  [Op.init "E" 1, Op.book 0 "u1", Op.cancel 0 "u1", Op.book 0 "u1"]

/-- C7: `bookTicket` does not fail with `DuplicateBooking` although a
non-cancelled booking of the pair exists — with exactly one active booking
for `(0, u1)` present, the call succeeds and creates a second active
(waiting) booking. -/
theorem c7_duplicate_check_misses_active_booking :
    ((run c7pre).bookings.countP
      (fun b => b.eventId == 0 && b.userId == "u1" && b.status != BStatus.cancelled)) = 1 ∧
    (bookTicket (run c7pre) 0 "u1").1 =
      Except.ok ⟨3, 0, "u1", BStatus.waiting, some 1⟩ := by
  exact ⟨by decide, rfl⟩

/-- Call sequence draining the waiting queue: `u2` gets waiting position 1
and is promoted when `u1` cancels, so the only queue entry of event `0` is
an assigned row at position 1 and the position counter — maxed only over
still-waiting rows — resets to 1. -/
def c4pre : List Op :=
  [Op.init "E" 1, Op.book 0 "u1", Op.book 0 "u2", Op.cancel 0 "u1"]

/-- C4: waiting-queue positions are not a monotonic counter over the event's
history: after the only waiting entry (position 1) is promoted,
`_getNextWaitingPosition` computes position 1 again; the insert at the
reused position is rejected by the unique `(eventId, position)` index, so
the next enqueue fails with the unique-constraint error after creating the
waiting Booking row and adds no queue entry, instead of handing out a fresh,
strictly larger position. -/
theorem c4_position_counter_resets :
    nextWaitingPosition (run c4pre) 0 = 1 ∧
    ((run c4pre).waiting.map (fun w => (w.position, w.status))) = [(1, WStatus.assigned)] ∧
    (bookTicket (run c4pre) 0 "u3").1 = Except.error errUniqueViolation ∧
    (bookTicket (run c4pre) 0 "u3").2.waiting = (run c4pre).waiting := by
  exact ⟨rfl, rfl, rfl, rfl⟩

/-- Call sequence reaching a state where the two waiting counts diverge:
via the duplicate-booking slip, `u1` acquires two waiting bookings backed by
two queue entries; promoting `u1` marks BOTH queue entries assigned but
confirms only ONE booking, leaving two waiting Booking rows against a single
waiting queue entry. -/
def c9ops : List Op :=
  [Op.init "E" 1, Op.book 0 "u1", Op.cancel 0 "u1", Op.book 0 "u1",
   Op.book 0 "u1", Op.book 0 "u1", Op.book 0 "u2", Op.cancel 0 "u1"]

/-- C9 counterexample: `getEventStatus` reports `waitingListCount = 1` —
counted from `WaitingList` rows — on a reachable state that has `2` Booking
rows with status waiting, so the waiting count is not derived by counting
Booking rows by status as the claim states. -/
theorem c9_waiting_count_not_from_bookings :
    getEventStatus (run c9ops) 0 = .ok ⟨0, "E", 1, 0, 1, 1⟩ ∧
    ((run c9ops).bookings.countP
      (fun b => b.eventId == 0 && b.status == BStatus.waiting)) = 2 := by
  exact ⟨rfl, by decide⟩

/-- C9 (amended): `getEventStatus` fails with `EventNotFound` when the event
id is unknown, and otherwise returns the event's stored `availableTickets`,
a confirmed count derived from Booking rows, and a waiting count derived
from `WaitingList` entries with status waiting (not from Booking rows); the
operation is pure, so it mutates no state. -/
theorem c9_status_aggregate (s : DBState) (e : Nat) :
    getEventStatus s e =
      (match findEvent s e with
       | none => .error errEventNotFound
       | some ev =>
         .ok ⟨ev.id, ev.name, ev.totalTickets, ev.availableTickets,
           confirmedCount s e,
           s.waiting.countP fun w => w.eventId == e && w.status == WStatus.waiting⟩) := by
  cases h : findEvent s e <;> simp [getEventStatus, confirmedCount, h]

/-- In a list with nodup keys split around `a`, every other element's key
differs from `a`'s. -/
theorem nodup_split_ne {α β : Type} (key : α → β) (l1 l2 : List α) (a : α)
    (hnd : ((l1 ++ a :: l2).map key).Nodup) :
    (∀ x ∈ l1, key x ≠ key a) ∧ (∀ x ∈ l2, key x ≠ key a) := by
  rw [List.map_append, List.map_cons, List.nodup_append] at hnd
  obtain ⟨h1, h2, hdisj⟩ := hnd
  refine ⟨fun x hx heq => ?_, fun x hx heq => ?_⟩
  · exact hdisj (List.mem_map_of_mem key hx) (by rw [heq]; exact List.mem_cons_self _ _)
  · rw [List.nodup_cons] at h2
    exact h2.1 (by rw [← heq]; exact List.mem_map_of_mem key hx)

/-- Mapping a guarded update over a list whose guard holds only at the split
element touches exactly that element. -/
theorem map_update_eq_of_unique {α : Type} (p : α → Bool) (g : α → α)
    (l1 l2 : List α) (a : α)
    (h1 : ∀ x ∈ l1, p x = false) (h2 : ∀ x ∈ l2, p x = false) (hpa : p a = true) :
    (l1 ++ a :: l2).map (fun x => if p x then g x else x) = l1 ++ g a :: l2 := by
  rw [List.map_append, List.map_cons]
  have e1 : l1.map (fun x => if p x then g x else x) = l1 := by
    have hcg : ∀ x ∈ l1, (fun x => if p x then g x else x) x = id x := by
      intro x hx; simp [h1 x hx]
    rw [List.map_congr_left hcg, List.map_id]
  have e2 : l2.map (fun x => if p x then g x else x) = l2 := by
    have hcg : ∀ x ∈ l2, (fun x => if p x then g x else x) x = id x := by
      intro x hx; simp [h2 x hx]
    rw [List.map_congr_left hcg, List.map_id]
  rw [e1, e2]
  simp [hpa]

/-- Inductive invariant satisfied by every reachable database state. -/
structure Inv (s : DBState) : Prop where
  evBound : ∀ ev ∈ s.events, ev.id < s.nextId
  evNodup : (s.events.map Event.id).Nodup
  bkBound : ∀ b ∈ s.bookings, b.id < s.nextId
  bkNodup : (s.bookings.map Booking.id).Nodup
  bkEv : ∀ b ∈ s.bookings, ∃ ev ∈ s.events, ev.id = b.eventId
  ticket : ∀ ev ∈ s.events, 0 ≤ ev.availableTickets ∧
    ev.availableTickets + (confirmedCount s ev.id : Int) ≤ ev.totalTickets
  wb : ∀ w ∈ s.waiting, w.status = WStatus.waiting →
    ∃ b ∈ s.bookings, b.eventId = w.eventId ∧ b.userId = w.userId ∧ b.status = BStatus.waiting
  pw : s.waiting.Pairwise (fun w1 w2 => w1.eventId = w2.eventId →
    w1.status = WStatus.waiting → w2.status = WStatus.waiting → w1.position < w2.position)

/-- The empty database satisfies the invariant. -/
theorem inv_initState : Inv initState := by
  constructor <;> simp [initState, confirmedCount]

/-- Splitting a booking table with nodup ids around a member describes the
effect of `setBookingStatus` exactly. -/
theorem setBookingStatus_decomp (s : DBState) (b : Booking) (hb : b ∈ s.bookings)
    (hnd : (s.bookings.map Booking.id).Nodup) (st : BStatus) :
    ∃ l1 l2, s.bookings = l1 ++ b :: l2 ∧
      (setBookingStatus s b.id st).bookings = l1 ++ { b with status := st } :: l2 ∧
      (∀ x ∈ l1, x.id ≠ b.id) ∧ (∀ x ∈ l2, x.id ≠ b.id) := by
  obtain ⟨l1, l2, hl⟩ := List.append_of_mem hb
  rw [hl] at hnd
  obtain ⟨h1, h2⟩ := nodup_split_ne Booking.id l1 l2 b hnd
  refine ⟨l1, l2, hl, ?_, h1, h2⟩
  show s.bookings.map (fun x => if x.id == b.id then { x with status := st } else x) = _
  rw [hl]
  refine map_update_eq_of_unique _ _ l1 l2 b ?_ ?_ (by simp)
  · intro x hx; simp [h1 x hx]
  · intro x hx; simp [h2 x hx]

/-- Balance equation for `confirmedCount` across a single status update of a
member row (stated without natural subtraction). -/
theorem confirmedCount_setStatus (s : DBState) (b : Booking) (hb : b ∈ s.bookings)
    (hnd : (s.bookings.map Booking.id).Nodup) (st : BStatus) (k : Nat) :
    confirmedCount (setBookingStatus s b.id st) k
      + (if (b.eventId == k && b.status == BStatus.confirmed : Bool) then 1 else 0)
    = confirmedCount s k
      + (if (b.eventId == k && (st == BStatus.confirmed) : Bool) then 1 else 0) := by
  obtain ⟨l1, l2, hl, hl', _, _⟩ := setBookingStatus_decomp s b hb hnd st
  unfold confirmedCount
  rw [hl, hl']
  simp only [List.countP_append, List.countP_cons]
  omega

/-- Bookings untouched by a status update of a different row survive
unchanged. -/
theorem mem_setBookingStatus_of_ne (s : DBState) (bid : Nat) (st : BStatus)
    (x : Booking) (hx : x ∈ s.bookings) (hne : x.id ≠ bid) :
    x ∈ (setBookingStatus s bid st).bookings := by
  have : x = (fun b => if b.id == bid then { b with status := st } else b) x := by
    simp [hne]
  rw [this]
  exact List.mem_map_of_mem _ hx

/-- An event lookup by id is unique under nodup ids: any member with the
looked-up id is the found row. -/
theorem event_unique_of_nodup (s : DBState) (e : Nat) (ev : Event)
    (hnd : (s.events.map Event.id).Nodup)
    (hev : findEvent s e = some ev) (x : Event) (hx : x ∈ s.events) (hid : x.id = e) :
    x = ev := by
  have hmem : ev ∈ s.events := List.mem_of_find?_eq_some hev
  have hpe := List.find?_some hev
  have hpe' : ev.id = e := by simpa using hpe
  exact List.inj_on_of_nodup_map hnd hx hmem (by rw [hid, hpe'])

/-- Case analysis of the state produced by `initializeEvent`. -/
theorem initializeEvent_cases (s : DBState) (n : String) (t : Int) :
    (initializeEvent s n t).2 = s ∨
    (¬ t < 1 ∧ (initializeEvent s n t).2 =
      ⟨s.events ++ [⟨s.nextId, n, t, t⟩], s.bookings, s.waiting, s.nextId + 1⟩) := by
  unfold initializeEvent
  by_cases hn : n = ""
  · rw [if_pos hn]; exact Or.inl rfl
  rw [if_neg hn]
  by_cases ht : t < 1
  · rw [if_pos ht]; exact Or.inl rfl
  · rw [if_neg ht]; exact Or.inr ⟨ht, rfl⟩

/-- `initializeEvent` preserves the invariant. -/
theorem inv_initializeEvent (s : DBState) (hs : Inv s) (n : String) (t : Int) :
    Inv (initializeEvent s n t).2 := by
  rcases initializeEvent_cases s n t with h | ⟨ht, h⟩
  · rw [h]; exact hs
  rw [h]
  have hcc : ∀ k, confirmedCount (⟨s.events ++ [(⟨s.nextId, n, t, t⟩ : Event)], s.bookings,
      s.waiting, s.nextId + 1⟩ : DBState) k = confirmedCount s k := fun _ => rfl
  constructor
  · intro ev hev
    rcases List.mem_append.mp hev with hm | hm
    · exact lt_trans (hs.evBound ev hm) (Nat.lt_succ_self _)
    · rw [List.mem_singleton.mp hm]; exact Nat.lt_succ_self _
  · show ((s.events ++ [(⟨s.nextId, n, t, t⟩ : Event)]).map Event.id).Nodup
    rw [List.map_append, List.nodup_append]
    refine ⟨hs.evNodup, by simp, ?_⟩
    intro a ha hb
    rw [List.map_singleton, List.mem_singleton] at hb
    have hb2 : a = s.nextId := hb
    rw [List.mem_map] at ha
    obtain ⟨ev0, hm, hid⟩ := ha
    have := hs.evBound ev0 hm
    omega
  · intro b hb
    exact lt_trans (hs.bkBound b hb) (Nat.lt_succ_self _)
  · exact hs.bkNodup
  · intro b hb
    obtain ⟨ev0, hm, hid⟩ := hs.bkEv b hb
    exact ⟨ev0, List.mem_append_left _ hm, hid⟩
  · intro ev hev
    rcases List.mem_append.mp hev with hm | hm
    · rw [hcc]; exact hs.ticket ev hm
    · rw [List.mem_singleton.mp hm]
      rw [hcc]
      have hz : confirmedCount s s.nextId = 0 := by
        unfold confirmedCount
        rw [List.countP_eq_zero]
        intro b hb hp
        simp only [Bool.and_eq_true, beq_iff_eq] at hp
        obtain ⟨ev0, hm0, hid0⟩ := hs.bkEv b hb
        have := hs.evBound ev0 hm0
        omega
      rw [hz]
      constructor
      · show (0 : Int) ≤ t; omega
      · show t + ((0 : Nat) : Int) ≤ t; simp
  · intro w hw hst
    exact hs.wb w hw hst
  · exact hs.pw

/-- Case analysis of the state produced by `bookTicket`. -/
theorem bookTicket_cases (s : DBState) (e : Nat) (u : String) :
    (bookTicket s e u).2 = s ∨
    (∃ ev, findEvent s e = some ev ∧ 0 < ev.availableTickets ∧
      (bookTicket s e u).2 = ⟨(decAvailable s e).events,
        s.bookings ++ [⟨s.nextId, e, u, BStatus.confirmed, none⟩],
        s.waiting, s.nextId + 1⟩) ∨
    (∃ ev, findEvent s e = some ev ∧ ev.availableTickets ≤ 0 ∧
      wlPositionTaken s e (nextWaitingPosition s e) = true ∧
      (bookTicket s e u).2 = ⟨s.events,
        s.bookings ++ [⟨s.nextId, e, u, BStatus.waiting, some (nextWaitingPosition s e)⟩],
        s.waiting, s.nextId + 1⟩) ∨
    (∃ ev, findEvent s e = some ev ∧ ev.availableTickets ≤ 0 ∧
      wlPositionTaken s e (nextWaitingPosition s e) = false ∧
      (bookTicket s e u).2 = ⟨s.events,
        s.bookings ++ [⟨s.nextId, e, u, BStatus.waiting, some (nextWaitingPosition s e)⟩],
        s.waiting ++ [⟨s.nextId + 1, e, u, nextWaitingPosition s e, WStatus.waiting⟩],
        s.nextId + 2⟩) := by
  unfold bookTicket
  by_cases hu : u = ""
  · rw [if_pos hu]; exact Or.inl rfl
  rw [if_neg hu]
  by_cases hdup : (match findBookingByPair s e u with
      | some b => b.status != BStatus.cancelled
      | none => false) = true
  · left
    simp only [hdup, if_true]
  · have hdup' : (match findBookingByPair s e u with
        | some b => b.status != BStatus.cancelled
        | none => false) = false := by
      revert hdup
      cases (match findBookingByPair s e u with
        | some b => b.status != BStatus.cancelled
        | none => false) <;> simp
    cases hev : findEvent s e with
    | none =>
      left
      simp only [hdup', Bool.false_eq_true, if_false, hev]
    | some ev =>
      by_cases hav : 0 < ev.availableTickets
      · right; left
        refine ⟨ev, rfl, hav, ?_⟩
        simp only [hdup', Bool.false_eq_true, if_false, if_pos hav]
        rfl
      · by_cases hcol : wlPositionTaken s e (nextWaitingPosition s e) = true
        · right; right; left
          refine ⟨ev, rfl, by omega, hcol, ?_⟩
          simp only [hdup', Bool.false_eq_true, if_false, if_neg hav]
          rw [if_pos hcol]
          rfl
        · right; right; right
          have hcol' : wlPositionTaken s e (nextWaitingPosition s e) = false := by
            revert hcol
            cases wlPositionTaken s e (nextWaitingPosition s e) <;> simp
          refine ⟨ev, rfl, by omega, hcol', ?_⟩
          simp only [hdup', Bool.false_eq_true, if_false, if_neg hav]
          rw [if_neg hcol]
          rfl

/-- Membership in the guarded per-id event update: each element is the image
of an original row, adjusted exactly when its id matches. -/
theorem mem_guard_map {g : Event → Event} {e : Nat} {l : List Event} {x : Event}
    (hx : x ∈ l.map (fun ev => if ev.id == e then g ev else ev)) :
    ∃ x0 ∈ l, ((x0.id = e ∧ x = g x0) ∨ (x0.id ≠ e ∧ x = x0)) := by
  rcases List.mem_map.mp hx with ⟨x0, hm, hxf⟩
  have hxf2 : (if (x0.id == e : Bool) = true then g x0 else x0) = x := hxf
  by_cases hc : ((x0.id == e) : Bool) = true
  · rw [if_pos hc] at hxf2
    exact ⟨x0, hm, Or.inl ⟨by simpa using hc, hxf2.symm⟩⟩
  · rw [if_neg hc] at hxf2
    refine ⟨x0, hm, Or.inr ⟨?_, hxf2.symm⟩⟩
    simpa using hc

/-- The guarded per-id update leaves the id column unchanged. -/
theorem guard_map_map_id {g : Event → Event} (hg : ∀ x, (g x).id = x.id) (e : Nat)
    (l : List Event) :
    (l.map (fun ev => if ev.id == e then g ev else ev)).map Event.id = l.map Event.id := by
  rw [List.map_map]
  refine List.map_congr_left (fun x _ => ?_)
  show (if (x.id == e : Bool) = true then g x else x).id = x.id
  by_cases hc : ((x.id == e) : Bool) = true
  · rw [if_pos hc, hg]
  · rw [if_neg hc]

/-- An id present before the guarded update is present after it. -/
theorem exists_id_guard_map {g : Event → Event} (hg : ∀ x, (g x).id = x.id) (e : Nat)
    (l : List Event) (k : Nat) (h : ∃ ev0 ∈ l, ev0.id = k) :
    ∃ ev2 ∈ l.map (fun ev => if ev.id == e then g ev else ev), ev2.id = k := by
  obtain ⟨ev0, hm, hid⟩ := h
  refine ⟨_, List.mem_map_of_mem _ hm, ?_⟩
  show (if (ev0.id == e : Bool) = true then g ev0 else ev0).id = k
  by_cases hc : ((ev0.id == e) : Bool) = true
  · rw [if_pos hc, hg]; exact hid
  · rw [if_neg hc]; exact hid

/-- `bookTicket` preserves the invariant. -/
theorem inv_bookTicket (s : DBState) (hs : Inv s) (e : Nat) (u : String) :
    Inv (bookTicket s e u).2 := by
  rcases bookTicket_cases s e u with h | ⟨ev, hev, hav, h⟩ | ⟨ev, hev, hav, _hcol, h⟩ | ⟨ev, hev, hav, _hcol, h⟩
  · rw [h]; exact hs
  · -- confirmed branch
    rw [h]
    have hevmem : ev ∈ s.events := List.mem_of_find?_eq_some hev
    have hevid : ev.id = e := by
      have hev2 : s.events.find? (fun x => x.id == e) = some ev := hev
      have := List.find?_some hev2
      simpa using this
    have hgid : ∀ x : Event,
        ({ x with availableTickets := x.availableTickets - 1 } : Event).id = x.id :=
      fun _ => rfl
    have hccS : ∀ k, confirmedCount
        (⟨(decAvailable s e).events,
          s.bookings ++ [(⟨s.nextId, e, u, BStatus.confirmed, none⟩ : Booking)],
          s.waiting, s.nextId + 1⟩ : DBState) k
        = confirmedCount s k + (if ((e == k) : Bool) then 1 else 0) := by
      intro k
      show (s.bookings ++ [(⟨s.nextId, e, u, BStatus.confirmed, none⟩ : Booking)]).countP
          (fun b => b.eventId == k && b.status == BStatus.confirmed)
        = s.bookings.countP (fun b => b.eventId == k && b.status == BStatus.confirmed)
          + (if ((e == k) : Bool) then 1 else 0)
      rw [List.countP_append, List.countP_cons]
      simp
    constructor
    · intro x hx
      have hx2 : x ∈ s.events.map (fun ev2 => if ev2.id == e
          then { ev2 with availableTickets := ev2.availableTickets - 1 } else ev2) := hx
      obtain ⟨x0, hm, hca⟩ := mem_guard_map hx2
      show x.id < s.nextId + 1
      rcases hca with ⟨_, rfl⟩ | ⟨_, hxeq⟩
      · exact lt_trans (hs.evBound x0 hm) (Nat.lt_succ_self _)
      · rw [hxeq]; exact lt_trans (hs.evBound x0 hm) (Nat.lt_succ_self _)
    · show ((s.events.map (fun ev2 => if ev2.id == e
          then { ev2 with availableTickets := ev2.availableTickets - 1 } else ev2)).map
          Event.id).Nodup
      rw [guard_map_map_id hgid]
      exact hs.evNodup
    · intro b hb
      have hb2 : b ∈ s.bookings ++ [(⟨s.nextId, e, u, BStatus.confirmed, none⟩ : Booking)] := hb
      rcases List.mem_append.mp hb2 with hm | hm
      · exact lt_trans (hs.bkBound b hm) (Nat.lt_succ_self _)
      · rw [List.mem_singleton.mp hm]; exact Nat.lt_succ_self _
    · show ((s.bookings ++ [(⟨s.nextId, e, u, BStatus.confirmed, none⟩ : Booking)]).map
          Booking.id).Nodup
      rw [List.map_append, List.nodup_append]
      refine ⟨hs.bkNodup, by simp, ?_⟩
      intro a ha hb
      rw [List.map_singleton, List.mem_singleton] at hb
      have hb2 : a = s.nextId := hb
      rw [List.mem_map] at ha
      obtain ⟨b0, hm, hid⟩ := ha
      have := hs.bkBound b0 hm
      omega
    · intro b hb
      have hb2 : b ∈ s.bookings ++ [(⟨s.nextId, e, u, BStatus.confirmed, none⟩ : Booking)] := hb
      rcases List.mem_append.mp hb2 with hm | hm
      · exact exists_id_guard_map hgid e s.events b.eventId (hs.bkEv b hm)
      · rw [List.mem_singleton.mp hm]
        exact exists_id_guard_map hgid e s.events e ⟨ev, hevmem, hevid⟩
    · intro x hx
      have hx2 : x ∈ s.events.map (fun ev2 => if ev2.id == e
          then { ev2 with availableTickets := ev2.availableTickets - 1 } else ev2) := hx
      obtain ⟨x0, hm, hca⟩ := mem_guard_map hx2
      obtain ⟨h0, hsum⟩ := hs.ticket x0 hm
      rcases hca with ⟨hid, rfl⟩ | ⟨hid, hxeq⟩
      · have hx0 : x0 = ev := event_unique_of_nodup s e ev hs.evNodup hev x0 hm hid
        rw [← hx0] at hav
        constructor
        · show 0 ≤ x0.availableTickets - 1
          omega
        · rw [hccS]
          have hkey : ((e ==
              ({ x0 with availableTickets := x0.availableTickets - 1 } : Event).id) : Bool)
              = true := by
            show ((e == x0.id) : Bool) = true
            simp [hid]
          rw [if_pos hkey]
          show x0.availableTickets - 1 + ((confirmedCount s x0.id + 1 : Nat) : Int)
            ≤ x0.totalTickets
          push_cast
          omega
      · rw [hxeq]
        constructor
        · exact h0
        · rw [hccS]
          have hkey : ¬ ((e == x0.id) : Bool) = true := by
            simp
            omega
          rw [if_neg hkey]
          show x0.availableTickets + ((confirmedCount s x0.id + 0 : Nat) : Int)
            ≤ x0.totalTickets
          simpa using hsum
    · intro w hw hst
      obtain ⟨b0, hm, hp⟩ := hs.wb w hw hst
      exact ⟨b0, List.mem_append_left _ hm, hp⟩
    · exact hs.pw
  · -- collision branch: booking row inserted, queue insert rejected
    rw [h]
    have hevmem : ev ∈ s.events := List.mem_of_find?_eq_some hev
    have hevid : ev.id = e := by
      have hev2 : s.events.find? (fun x => x.id == e) = some ev := hev
      have := List.find?_some hev2
      simpa using this
    have hccS : ∀ k, confirmedCount
        (⟨s.events,
          s.bookings ++ [(⟨s.nextId, e, u, BStatus.waiting,
            some (nextWaitingPosition s e)⟩ : Booking)],
          s.waiting, s.nextId + 1⟩ : DBState) k
        = confirmedCount s k := by
      intro k
      show (s.bookings ++ [(⟨s.nextId, e, u, BStatus.waiting,
          some (nextWaitingPosition s e)⟩ : Booking)]).countP
          (fun b => b.eventId == k && b.status == BStatus.confirmed)
        = s.bookings.countP (fun b => b.eventId == k && b.status == BStatus.confirmed)
      rw [List.countP_append, List.countP_cons]
      simp
    constructor
    · intro ev0 hm
      have hm2 : ev0 ∈ s.events := hm
      exact lt_trans (hs.evBound ev0 hm2) (Nat.lt_succ_self _)
    · exact hs.evNodup
    · intro b hb
      have hb2 : b ∈ s.bookings ++ [(⟨s.nextId, e, u, BStatus.waiting,
          some (nextWaitingPosition s e)⟩ : Booking)] := hb
      rcases List.mem_append.mp hb2 with hm | hm
      · exact lt_trans (hs.bkBound b hm) (Nat.lt_succ_self _)
      · rw [List.mem_singleton.mp hm]
        exact Nat.lt_succ_self _
    · show ((s.bookings ++ [(⟨s.nextId, e, u, BStatus.waiting,
          some (nextWaitingPosition s e)⟩ : Booking)]).map Booking.id).Nodup
      rw [List.map_append, List.nodup_append]
      refine ⟨hs.bkNodup, by simp, ?_⟩
      intro a ha hb
      rw [List.map_singleton, List.mem_singleton] at hb
      have hb2 : a = s.nextId := hb
      rw [List.mem_map] at ha
      obtain ⟨b0, hm, hid⟩ := ha
      have := hs.bkBound b0 hm
      omega
    · intro b hb
      have hb2 : b ∈ s.bookings ++ [(⟨s.nextId, e, u, BStatus.waiting,
          some (nextWaitingPosition s e)⟩ : Booking)] := hb
      rcases List.mem_append.mp hb2 with hm | hm
      · exact hs.bkEv b hm
      · rw [List.mem_singleton.mp hm]
        exact ⟨ev, hevmem, hevid⟩
    · intro ev0 hm
      rw [hccS]
      exact hs.ticket ev0 hm
    · intro w hw hst
      obtain ⟨b0, hm0, hp⟩ := hs.wb w hw hst
      exact ⟨b0, List.mem_append_left _ hm0, hp⟩
    · exact hs.pw
  · -- waiting branch
    rw [h]
    have hevmem : ev ∈ s.events := List.mem_of_find?_eq_some hev
    have hevid : ev.id = e := by
      have hev2 : s.events.find? (fun x => x.id == e) = some ev := hev
      have := List.find?_some hev2
      simpa using this
    have hccS : ∀ k, confirmedCount
        (⟨s.events,
          s.bookings ++ [(⟨s.nextId, e, u, BStatus.waiting,
            some (nextWaitingPosition s e)⟩ : Booking)],
          s.waiting ++ [(⟨s.nextId + 1, e, u, nextWaitingPosition s e,
            WStatus.waiting⟩ : WLEntry)],
          s.nextId + 2⟩ : DBState) k
        = confirmedCount s k := by
      intro k
      show (s.bookings ++ [(⟨s.nextId, e, u, BStatus.waiting,
          some (nextWaitingPosition s e)⟩ : Booking)]).countP
          (fun b => b.eventId == k && b.status == BStatus.confirmed)
        = s.bookings.countP (fun b => b.eventId == k && b.status == BStatus.confirmed)
      rw [List.countP_append, List.countP_cons]
      simp
    constructor
    · intro ev0 hm
      have hm2 : ev0 ∈ s.events := hm
      exact lt_trans (hs.evBound ev0 hm2) (show s.nextId < s.nextId + 2 by omega)
    · exact hs.evNodup
    · intro b hb
      have hb2 : b ∈ s.bookings ++ [(⟨s.nextId, e, u, BStatus.waiting,
          some (nextWaitingPosition s e)⟩ : Booking)] := hb
      rcases List.mem_append.mp hb2 with hm | hm
      · exact lt_trans (hs.bkBound b hm) (show s.nextId < s.nextId + 2 by omega)
      · rw [List.mem_singleton.mp hm]
        show s.nextId < s.nextId + 2
        omega
    · show ((s.bookings ++ [(⟨s.nextId, e, u, BStatus.waiting,
          some (nextWaitingPosition s e)⟩ : Booking)]).map Booking.id).Nodup
      rw [List.map_append, List.nodup_append]
      refine ⟨hs.bkNodup, by simp, ?_⟩
      intro a ha hb
      rw [List.map_singleton, List.mem_singleton] at hb
      have hb2 : a = s.nextId := hb
      rw [List.mem_map] at ha
      obtain ⟨b0, hm, hid⟩ := ha
      have := hs.bkBound b0 hm
      omega
    · intro b hb
      have hb2 : b ∈ s.bookings ++ [(⟨s.nextId, e, u, BStatus.waiting,
          some (nextWaitingPosition s e)⟩ : Booking)] := hb
      rcases List.mem_append.mp hb2 with hm | hm
      · exact hs.bkEv b hm
      · rw [List.mem_singleton.mp hm]
        exact ⟨ev, hevmem, hevid⟩
    · intro ev0 hm
      rw [hccS]
      exact hs.ticket ev0 hm
    · intro w hw hst
      have hw2 : w ∈ s.waiting ++ [(⟨s.nextId + 1, e, u, nextWaitingPosition s e,
          WStatus.waiting⟩ : WLEntry)] := hw
      rcases List.mem_append.mp hw2 with hm | hm
      · obtain ⟨b0, hm0, hp⟩ := hs.wb w hm hst
        exact ⟨b0, List.mem_append_left _ hm0, hp⟩
      · rw [List.mem_singleton.mp hm]
        exact ⟨⟨s.nextId, e, u, BStatus.waiting, some (nextWaitingPosition s e)⟩,
          List.mem_append_right _ (List.mem_singleton_self _), rfl, rfl, rfl⟩
    · have hpw : (s.waiting ++ [(⟨s.nextId + 1, e, u, nextWaitingPosition s e,
          WStatus.waiting⟩ : WLEntry)]).Pairwise (fun w1 w2 => w1.eventId = w2.eventId →
          w1.status = WStatus.waiting → w2.status = WStatus.waiting →
          w1.position < w2.position) := by
        rw [List.pairwise_append]
        refine ⟨hs.pw, by simp, ?_⟩
        intro x hx y hy
        rw [List.mem_singleton] at hy
        subst hy
        intro hxe hxw _
        show x.position < nextWaitingPosition s e
        apply pos_lt_nextWaitingPosition s e x hx
        unfold activeEntry
        rw [Bool.and_eq_true]
        refine ⟨?_, by simp [hxw]⟩
        simp only [beq_iff_eq]
        exact hxe
      exact hpw

/-- Case analysis of the state produced by `cancelBooking`, recording the
exact intermediate states of the source's steps. -/
theorem cancelBooking_cases (s : DBState) (e : Nat) (u : String) :
    (∃ msg, cancelBooking s e u = (Except.error msg, s)) ∨
    (∃ b, findConfirmedBooking s e u = some b ∧
      ((findEvent (setBookingStatus s b.id BStatus.cancelled) e = none ∧
        cancelBooking s e u =
          (Except.error errEventNotFound, setBookingStatus s b.id BStatus.cancelled)) ∨
       ((∃ ev, findEvent (setBookingStatus s b.id BStatus.cancelled) e = some ev) ∧
        ((findEarliestWaiting (incAvailable (setBookingStatus s b.id BStatus.cancelled) e) e
            = none ∧
          cancelBooking s e u =
            (Except.ok ({ b with status := BStatus.cancelled }, none),
              incAvailable (setBookingStatus s b.id BStatus.cancelled) e)) ∨
         (∃ w, findEarliestWaiting (incAvailable (setBookingStatus s b.id BStatus.cancelled) e) e
            = some w ∧
          ((findWaitingBooking (markAssigned
              (incAvailable (setBookingStatus s b.id BStatus.cancelled) e) e w.userId)
              e w.userId = none ∧
            cancelBooking s e u =
              (Except.ok ({ b with status := BStatus.cancelled }, none),
                decAvailable (markAssigned
                  (incAvailable (setBookingStatus s b.id BStatus.cancelled) e) e w.userId) e)) ∨
           (∃ bw, findWaitingBooking (markAssigned
              (incAvailable (setBookingStatus s b.id BStatus.cancelled) e) e w.userId)
              e w.userId = some bw ∧
            cancelBooking s e u =
              (Except.ok ({ b with status := BStatus.cancelled },
                  some { bw with status := BStatus.confirmed }),
                decAvailable (setBookingStatus (markAssigned
                  (incAvailable (setBookingStatus s b.id BStatus.cancelled) e) e w.userId)
                  bw.id BStatus.confirmed) e)))))))) := by
  unfold cancelBooking
  by_cases hu : u = ""
  · rw [if_pos hu]; exact Or.inl ⟨errRequired, rfl⟩
  rw [if_neg hu]
  cases hfc : findConfirmedBooking s e u with
  | none => exact Or.inl ⟨errNoConfirmed, rfl⟩
  | some b =>
    right
    refine ⟨b, rfl, ?_⟩
    cases hev : findEvent (setBookingStatus s b.id BStatus.cancelled) e with
    | none =>
      left
      refine ⟨rfl, ?_⟩
      simp only [hev]
    | some ev =>
      right
      refine ⟨⟨ev, rfl⟩, ?_⟩
      cases hw : findEarliestWaiting
          (incAvailable (setBookingStatus s b.id BStatus.cancelled) e) e with
      | none =>
        left
        refine ⟨rfl, ?_⟩
        simp only [hev, hw]
      | some w =>
        right
        refine ⟨w, rfl, ?_⟩
        unfold assignWaitingUser
        cases hfw : findWaitingBooking (markAssigned
            (incAvailable (setBookingStatus s b.id BStatus.cancelled) e) e w.userId)
            e w.userId with
        | none =>
          left
          refine ⟨rfl, ?_⟩
          simp only [hev, hw, hfw]
        | some bw =>
          right
          refine ⟨bw, rfl, ?_⟩
          simp only [hev, hw, hfw]

/-- `setBookingStatus` leaves the id column of the bookings table
unchanged. -/
theorem setBookingStatus_map_id (s : DBState) (bid : Nat) (st : BStatus) :
    (setBookingStatus s bid st).bookings.map Booking.id = s.bookings.map Booking.id := by
  show ((s.bookings.map fun b => if b.id == bid then { b with status := st } else b).map
    Booking.id) = _
  rw [List.map_map]
  refine List.map_congr_left (fun x _ => ?_)
  show (if (x.id == bid : Bool) = true then ({ x with status := st } : Booking) else x).id = x.id
  by_cases hc : ((x.id == bid) : Bool) = true
  · rw [if_pos hc]
  · rw [if_neg hc]

/-- Each booking after a status update descends from an original row with
the same id and event. -/
theorem mem_setBookingStatus_target (s : DBState) (bid : Nat) (st : BStatus) (x : Booking)
    (hx : x ∈ (setBookingStatus s bid st).bookings) :
    ∃ x0 ∈ s.bookings, x.eventId = x0.eventId ∧ x.id = x0.id := by
  have hx2 : x ∈ s.bookings.map (fun b => if b.id == bid then { b with status := st } else b) :=
    hx
  rcases List.mem_map.mp hx2 with ⟨x0, hm, hxf⟩
  have hxf2 : (if (x0.id == bid : Bool) = true then ({ x0 with status := st } : Booking)
      else x0) = x := hxf
  by_cases hc : ((x0.id == bid) : Bool) = true
  · rw [if_pos hc] at hxf2
    exact ⟨x0, hm, by rw [← hxf2], by rw [← hxf2]⟩
  · rw [if_neg hc] at hxf2
    exact ⟨x0, hm, by rw [← hxf2], by rw [← hxf2]⟩

/-- Ids are preserved elementwise by the guarded event update. -/
theorem mem_guard_map_id {g : Event → Event} (hg : ∀ x, (g x).id = x.id) {e : Nat}
    {l : List Event} {x : Event}
    (hx : x ∈ l.map (fun ev => if ev.id == e then g ev else ev)) :
    ∃ x0 ∈ l, x.id = x0.id := by
  obtain ⟨x0, hm, hca⟩ := mem_guard_map hx
  rcases hca with ⟨_, rfl⟩ | ⟨_, hxeq⟩
  · exact ⟨x0, hm, hg x0⟩
  · exact ⟨x0, hm, by rw [hxeq]⟩

/-- `cancelBooking` preserves the invariant. -/
theorem inv_cancelBooking (s : DBState) (hs : Inv s) (e : Nat) (u : String) :
    Inv (cancelBooking s e u).2 := by
  rcases cancelBooking_cases s e u with ⟨msg, h⟩ | ⟨b, hfc, hrest⟩
  · rw [h]; exact hs
  have hfc2 : s.bookings.find?
      (fun b2 => b2.eventId == e && b2.userId == u && b2.status == BStatus.confirmed)
      = some b := hfc
  have hb : b ∈ s.bookings := List.mem_of_find?_eq_some hfc2
  have hbp := List.find?_some hfc2
  simp only [Bool.and_eq_true, beq_iff_eq] at hbp
  obtain ⟨⟨hbe, hbu⟩, hbst⟩ := hbp
  have hcc1 : ∀ k, confirmedCount (setBookingStatus s b.id BStatus.cancelled) k
      + (if ((e == k) : Bool) then 1 else 0) = confirmedCount s k := by
    intro k
    have hq := confirmedCount_setStatus s b hb hs.bkNodup BStatus.cancelled k
    rw [hbe, hbst] at hq
    simpa using hq
  have hnd1 : ((setBookingStatus s b.id BStatus.cancelled).bookings.map Booking.id).Nodup := by
    rw [setBookingStatus_map_id]; exact hs.bkNodup
  rcases hrest with ⟨hevnone, h⟩ | ⟨⟨ev, hev⟩, hrest2⟩
  · exfalso
    have hev2 : s.events.find? (fun x => x.id == e) = none := hevnone
    rw [List.find?_eq_none] at hev2
    obtain ⟨ev0, hm, hid⟩ := hs.bkEv b hb
    exact hev2 ev0 hm (by simp [hid, hbe])
  rcases hrest2 with ⟨hwnone, h⟩ | ⟨w, hwsome, hrest3⟩
  · -- no promotion: final state is `incAvailable s1 e`
    rw [h]
    have hccInc : ∀ k, confirmedCount
        (incAvailable (setBookingStatus s b.id BStatus.cancelled) e) k
        = confirmedCount (setBookingStatus s b.id BStatus.cancelled) k := fun _ => rfl
    have hgid : ∀ x : Event,
        ({ x with availableTickets := x.availableTickets + 1 } : Event).id = x.id :=
      fun _ => rfl
    constructor
    · intro x hx
      have hx2 : x ∈ s.events.map (fun ev2 => if ev2.id == e
          then { ev2 with availableTickets := ev2.availableTickets + 1 } else ev2) := hx
      obtain ⟨x0, hm, hid⟩ := mem_guard_map_id hgid hx2
      show x.id < s.nextId
      rw [hid]
      exact hs.evBound x0 hm
    · show ((s.events.map (fun ev2 => if ev2.id == e
          then { ev2 with availableTickets := ev2.availableTickets + 1 } else ev2)).map
          Event.id).Nodup
      rw [guard_map_map_id hgid]
      exact hs.evNodup
    · intro x hx
      obtain ⟨x0, hm0, _, hxid⟩ := mem_setBookingStatus_target s b.id BStatus.cancelled x hx
      show x.id < s.nextId
      rw [hxid]
      exact hs.bkBound x0 hm0
    · show ((setBookingStatus s b.id BStatus.cancelled).bookings.map Booking.id).Nodup
      exact hnd1
    · intro x hx
      obtain ⟨x0, hm0, hxe, _⟩ := mem_setBookingStatus_target s b.id BStatus.cancelled x hx
      rw [hxe]
      exact exists_id_guard_map hgid e s.events x0.eventId (hs.bkEv x0 hm0)
    · intro x hx
      have hx2 : x ∈ s.events.map (fun ev2 => if ev2.id == e
          then { ev2 with availableTickets := ev2.availableTickets + 1 } else ev2) := hx
      obtain ⟨x0, hm, hca⟩ := mem_guard_map hx2
      obtain ⟨h0, hsum⟩ := hs.ticket x0 hm
      rcases hca with ⟨hid, rfl⟩ | ⟨hid, hxeq⟩
      · constructor
        · show 0 ≤ x0.availableTickets + 1
          omega
        · show x0.availableTickets + 1 + ((confirmedCount
              (incAvailable (setBookingStatus s b.id BStatus.cancelled) e) x0.id : Nat) : Int)
            ≤ x0.totalTickets
          rw [hccInc]
          have hc1 := hcc1 x0.id
          rw [if_pos (show ((e == x0.id) : Bool) = true by simp [hid])] at hc1
          omega
      · rw [hxeq]
        constructor
        · exact h0
        · show x0.availableTickets + ((confirmedCount
              (incAvailable (setBookingStatus s b.id BStatus.cancelled) e) x0.id : Nat) : Int)
            ≤ x0.totalTickets
          rw [hccInc]
          have hc1 := hcc1 x0.id
          rw [if_neg (show ¬ ((e == x0.id) : Bool) = true by simp; omega)] at hc1
          omega
    · intro w2 hw2 hst2
      have hw3 : w2 ∈ s.waiting := hw2
      obtain ⟨b0, hm0, hp0e, hp0u, hp0s⟩ := hs.wb w2 hw3 hst2
      have hb0ne : b0 ≠ b := by
        intro hEq
        rw [hEq, hbst] at hp0s
        exact BStatus.noConfusion hp0s
      have hb0idne : b0.id ≠ b.id := fun hEq =>
        hb0ne (List.inj_on_of_nodup_map hs.bkNodup hm0 hb hEq)
      exact ⟨b0, mem_setBookingStatus_of_ne s b.id BStatus.cancelled b0 hm0 hb0idne,
        hp0e, hp0u, hp0s⟩
    · exact hs.pw
  -- facts about the selected queue entry w
  have hw3 : pickMinPos (s.waiting.filter (activeEntry e)) = some w := hwsome
  have hwmem0 := pickMinPos_mem hw3
  rw [List.mem_filter] at hwmem0
  obtain ⟨hwmem, hwact⟩ := hwmem0
  have hwact2 := hwact
  unfold activeEntry at hwact2
  simp only [Bool.and_eq_true, beq_iff_eq] at hwact2
  obtain ⟨hwe, hws⟩ := hwact2
  obtain ⟨b0, hm0, hp0e, hp0u, hp0s⟩ := hs.wb w hwmem hws
  have hb0ne : b0 ≠ b := by
    intro hEq
    rw [hEq, hbst] at hp0s
    exact BStatus.noConfusion hp0s
  have hb0idne : b0.id ≠ b.id := fun hEq =>
    hb0ne (List.inj_on_of_nodup_map hs.bkNodup hm0 hb hEq)
  have hb0mem1 : b0 ∈ (setBookingStatus s b.id BStatus.cancelled).bookings :=
    mem_setBookingStatus_of_ne s b.id BStatus.cancelled b0 hm0 hb0idne
  rcases hrest3 with ⟨hfwnone, h⟩ | ⟨bw, hfw, h⟩
  · exfalso
    have hfw2 : (setBookingStatus s b.id BStatus.cancelled).bookings.find?
        (fun b2 => b2.eventId == e && b2.userId == w.userId && b2.status == BStatus.waiting)
        = none := hfwnone
    rw [List.find?_eq_none] at hfw2
    exact hfw2 b0 hb0mem1 (by simp [hp0e, hp0u, hp0s, hwe])
  -- promotion with the waiting booking bw
  rw [h]
  have hfw3 : (setBookingStatus s b.id BStatus.cancelled).bookings.find?
      (fun b2 => b2.eventId == e && b2.userId == w.userId && b2.status == BStatus.waiting)
      = some bw := hfw
  have hbwmem : bw ∈ (setBookingStatus s b.id BStatus.cancelled).bookings :=
    List.mem_of_find?_eq_some hfw3
  have hbwp := List.find?_some hfw3
  simp only [Bool.and_eq_true, beq_iff_eq] at hbwp
  obtain ⟨⟨hbwe, hbwu⟩, hbws⟩ := hbwp
  have hcc4 : ∀ k, confirmedCount (setBookingStatus (markAssigned
      (incAvailable (setBookingStatus s b.id BStatus.cancelled) e) e w.userId)
      bw.id BStatus.confirmed) k
      = confirmedCount (setBookingStatus s b.id BStatus.cancelled) k
        + (if ((e == k) : Bool) then 1 else 0) := by
    intro k
    have hbw3 : bw ∈ (markAssigned (incAvailable
        (setBookingStatus s b.id BStatus.cancelled) e) e w.userId).bookings := hbwmem
    have hnd3 : ((markAssigned (incAvailable
        (setBookingStatus s b.id BStatus.cancelled) e) e w.userId).bookings.map
        Booking.id).Nodup := hnd1
    have hq := confirmedCount_setStatus (markAssigned (incAvailable
        (setBookingStatus s b.id BStatus.cancelled) e) e w.userId) bw hbw3 hnd3
        BStatus.confirmed k
    rw [hbwe, hbws] at hq
    have hc3 : confirmedCount (markAssigned (incAvailable
        (setBookingStatus s b.id BStatus.cancelled) e) e w.userId) k
        = confirmedCount (setBookingStatus s b.id BStatus.cancelled) k := rfl
    rw [hc3] at hq
    simpa using hq
  have hgidInc : ∀ x : Event,
      ({ x with availableTickets := x.availableTickets + 1 } : Event).id = x.id := fun _ => rfl
  have hgidDec : ∀ x : Event,
      ({ x with availableTickets := x.availableTickets - 1 } : Event).id = x.id := fun _ => rfl
  have hnd4 : ((setBookingStatus (markAssigned (incAvailable
      (setBookingStatus s b.id BStatus.cancelled) e) e w.userId)
      bw.id BStatus.confirmed).bookings.map Booking.id).Nodup := by
    rw [setBookingStatus_map_id]
    exact hnd1
  constructor
  · intro x hx
    have hx2 : x ∈ (s.events.map (fun ev2 => if ev2.id == e
        then { ev2 with availableTickets := ev2.availableTickets + 1 } else ev2)).map
        (fun ev2 => if ev2.id == e
        then { ev2 with availableTickets := ev2.availableTickets - 1 } else ev2) := hx
    obtain ⟨x1, hm1, hid1⟩ := mem_guard_map_id hgidDec hx2
    obtain ⟨x0, hm0, hid0⟩ := mem_guard_map_id hgidInc hm1
    show x.id < s.nextId
    rw [hid1, hid0]
    exact hs.evBound x0 hm0
  · show (((s.events.map (fun ev2 => if ev2.id == e
        then { ev2 with availableTickets := ev2.availableTickets + 1 } else ev2)).map
        (fun ev2 => if ev2.id == e
        then { ev2 with availableTickets := ev2.availableTickets - 1 } else ev2)).map
        Event.id).Nodup
    rw [guard_map_map_id hgidDec, guard_map_map_id hgidInc]
    exact hs.evNodup
  · intro x hx
    obtain ⟨x1, hm1, _, hxid1⟩ := mem_setBookingStatus_target (markAssigned (incAvailable
        (setBookingStatus s b.id BStatus.cancelled) e) e w.userId) bw.id BStatus.confirmed x hx
    have hm1s : x1 ∈ (setBookingStatus s b.id BStatus.cancelled).bookings := hm1
    obtain ⟨x0, hm0, _, hxid0⟩ := mem_setBookingStatus_target s b.id BStatus.cancelled x1 hm1s
    show x.id < s.nextId
    rw [hxid1, hxid0]
    exact hs.bkBound x0 hm0
  · exact hnd4
  · intro x hx
    obtain ⟨x1, hm1, hxe1, _⟩ := mem_setBookingStatus_target (markAssigned (incAvailable
        (setBookingStatus s b.id BStatus.cancelled) e) e w.userId) bw.id BStatus.confirmed x hx
    have hm1s : x1 ∈ (setBookingStatus s b.id BStatus.cancelled).bookings := hm1
    obtain ⟨x0, hm0, hxe0, _⟩ := mem_setBookingStatus_target s b.id BStatus.cancelled x1 hm1s
    rw [hxe1, hxe0]
    have hstep := exists_id_guard_map hgidInc e s.events x0.eventId (hs.bkEv x0 hm0)
    exact exists_id_guard_map hgidDec e (s.events.map (fun ev2 => if ev2.id == e
        then { ev2 with availableTickets := ev2.availableTickets + 1 } else ev2)) x0.eventId hstep
  · intro x hx
    have hx2 : x ∈ (s.events.map (fun ev2 => if ev2.id == e
        then { ev2 with availableTickets := ev2.availableTickets + 1 } else ev2)).map
        (fun ev2 => if ev2.id == e
        then { ev2 with availableTickets := ev2.availableTickets - 1 } else ev2) := hx
    obtain ⟨x1, hm1, hca1⟩ := mem_guard_map hx2
    obtain ⟨x0, hm0, hca0⟩ := mem_guard_map hm1
    obtain ⟨h0, hsum⟩ := hs.ticket x0 hm0
    have hccS : ∀ k, confirmedCount (decAvailable (setBookingStatus (markAssigned
        (incAvailable (setBookingStatus s b.id BStatus.cancelled) e) e w.userId)
        bw.id BStatus.confirmed) e) k
        = confirmedCount (setBookingStatus (markAssigned
        (incAvailable (setBookingStatus s b.id BStatus.cancelled) e) e w.userId)
        bw.id BStatus.confirmed) k := fun _ => rfl
    rcases hca1 with ⟨hid1, rfl⟩ | ⟨hid1, hxeq1⟩
    · rcases hca0 with ⟨hid0, rfl⟩ | ⟨hid0, hxeq0⟩
      · constructor
        · show 0 ≤ x0.availableTickets + 1 - 1
          omega
        · show x0.availableTickets + 1 - 1 + ((confirmedCount (decAvailable
            (setBookingStatus (markAssigned (incAvailable
            (setBookingStatus s b.id BStatus.cancelled) e) e w.userId)
            bw.id BStatus.confirmed) e) x0.id : Nat) : Int) ≤ x0.totalTickets
          rw [hccS, hcc4]
          rw [if_pos (show ((e == x0.id) : Bool) = true by simp [hid0])]
          have hc1 := hcc1 x0.id
          rw [if_pos (show ((e == x0.id) : Bool) = true by simp [hid0])] at hc1
          push_cast
          omega
      · exfalso
        rw [hxeq0] at hid1
        exact hid0 hid1
    · rcases hca0 with ⟨hid0, rfl⟩ | ⟨hid0, hxeq0⟩
      · exfalso
        exact hid1 (by rw [hgidInc x0]; exact hid0)
      · rw [hxeq1, hxeq0]
        constructor
        · exact h0
        · show x0.availableTickets + ((confirmedCount (decAvailable
            (setBookingStatus (markAssigned (incAvailable
            (setBookingStatus s b.id BStatus.cancelled) e) e w.userId)
            bw.id BStatus.confirmed) e) x0.id : Nat) : Int) ≤ x0.totalTickets
          rw [hccS, hcc4]
          rw [hxeq0] at hid1
          have hkne : ¬ ((e == x0.id) : Bool) = true := by
            simp
            omega
          rw [if_neg hkne]
          have hc1 := hcc1 x0.id
          rw [if_neg hkne] at hc1
          omega
  · intro w2 hw2 hst2
    have hw4 : w2 ∈ s.waiting.map (fun x2 => if x2.eventId == e && x2.userId == w.userId
        then { x2 with status := WStatus.assigned } else x2) := hw2
    rcases List.mem_map.mp hw4 with ⟨x, hxm, hxf⟩
    have hxf2 : (if (x.eventId == e && x.userId == w.userId : Bool) = true
        then ({ x with status := WStatus.assigned } : WLEntry) else x) = w2 := hxf
    by_cases hg : ((x.eventId == e && x.userId == w.userId) : Bool) = true
    · exfalso
      rw [if_pos hg] at hxf2
      rw [← hxf2] at hst2
      exact WStatus.noConfusion hst2
    · rw [if_neg hg] at hxf2
      obtain ⟨b2, hm2, hp2e, hp2u, hp2s⟩ := hs.wb x hxm (by rw [hxf2]; exact hst2)
      have hb2ne : b2 ≠ b := by
        intro hEq
        rw [hEq, hbst] at hp2s
        exact BStatus.noConfusion hp2s
      have hb2idne : b2.id ≠ b.id := fun hEq =>
        hb2ne (List.inj_on_of_nodup_map hs.bkNodup hm2 hb hEq)
      have hb2mem1 : b2 ∈ (setBookingStatus s b.id BStatus.cancelled).bookings :=
        mem_setBookingStatus_of_ne s b.id BStatus.cancelled b2 hm2 hb2idne
      have hb2nebw : b2 ≠ bw := by
        intro hEq
        apply hg
        have h1 : x.eventId = e := by rw [← hp2e, hEq, hbwe]
        have h2 : x.userId = w.userId := by rw [← hp2u, hEq, hbwu]
        simp [h1, h2]
      have hb2idnebw : b2.id ≠ bw.id := fun hEq =>
        hb2nebw (List.inj_on_of_nodup_map hnd1 hb2mem1 hbwmem hEq)
      have hb2mem4 : b2 ∈ (setBookingStatus (markAssigned (incAvailable
          (setBookingStatus s b.id BStatus.cancelled) e) e w.userId)
          bw.id BStatus.confirmed).bookings := by
        have hb2mem3 : b2 ∈ (markAssigned (incAvailable
            (setBookingStatus s b.id BStatus.cancelled) e) e w.userId).bookings := hb2mem1
        exact mem_setBookingStatus_of_ne _ bw.id BStatus.confirmed b2 hb2mem3 hb2idnebw
      refine ⟨b2, hb2mem4, ?_, ?_, hp2s⟩
      · rw [← hxf2]; exact hp2e
      · rw [← hxf2]; exact hp2u
  · have hkeep : ∀ x : WLEntry,
        ((if x.eventId == e && x.userId == w.userId
          then ({ x with status := WStatus.assigned } : WLEntry) else x).eventId = x.eventId)
        ∧ ((if x.eventId == e && x.userId == w.userId
          then ({ x with status := WStatus.assigned } : WLEntry) else x).position = x.position)
        ∧ ((if x.eventId == e && x.userId == w.userId
          then ({ x with status := WStatus.assigned } : WLEntry) else x).status
            = WStatus.waiting → x.status = WStatus.waiting) := by
      intro x
      by_cases hg : ((x.eventId == e && x.userId == w.userId) : Bool) = true
      · rw [if_pos hg]
        exact ⟨rfl, rfl, fun hcontra => WStatus.noConfusion hcontra⟩
      · rw [if_neg hg]
        exact ⟨rfl, rfl, fun hh => hh⟩
    show (s.waiting.map (fun x2 => if x2.eventId == e && x2.userId == w.userId
        then { x2 with status := WStatus.assigned } else x2)).Pairwise
        (fun w1 w2 => w1.eventId = w2.eventId → w1.status = WStatus.waiting →
          w2.status = WStatus.waiting → w1.position < w2.position)
    refine List.Pairwise.map _ (fun a c hR => ?_) hs.pw
    obtain ⟨hae, hap, haw⟩ := hkeep a
    obtain ⟨hce, hcp, hcw⟩ := hkeep c
    intro h1 h2 h3
    rw [hap, hcp]
    refine hR ?_ (haw h2) (hcw h3)
    rw [← hae, ← hce]
    exact h1

/-- Every single call preserves the invariant. -/
theorem inv_step (s : DBState) (hs : Inv s) (op : Op) : Inv (step s op) := by
  cases op with
  | init n t => exact inv_initializeEvent s hs n t
  | book e u => exact inv_bookTicket s hs e u
  | cancel e u => exact inv_cancelBooking s hs e u

/-- Executing any call list from an invariant state keeps the invariant. -/
theorem inv_foldl (ops : List Op) : ∀ s, Inv s → Inv (ops.foldl step s) := by
  induction ops with
  | nil => intro s hs; exact hs
  | cons op ops ih => intro s hs; exact ih (step s op) (inv_step s hs op)

/-- Every reachable state satisfies the invariant. -/
theorem reachable_inv (s : DBState) (h : Reachable s) : Inv s := by
  obtain ⟨ops, hrun⟩ := h
  rw [← hrun]
  exact inv_foldl ops initState inv_initState

/-- C6: in every reachable state and for every event, the confirmed-booking
count never exceeds `totalTickets`, and `availableTickets` stays within
`0..totalTickets`. -/
theorem c6_confirmed_and_available_bounds (s : DBState) (h : Reachable s) :
    ∀ ev ∈ s.events, (confirmedCount s ev.id : Int) ≤ ev.totalTickets ∧
      0 ≤ ev.availableTickets ∧ ev.availableTickets ≤ ev.totalTickets := by
  have hs := reachable_inv s h
  intro ev hm
  obtain ⟨h0, hsum⟩ := hs.ticket ev hm
  exact ⟨by omega, h0, by omega⟩

/-- C6 witness: a concrete two-call execution, checked at its one event. -/
theorem c6_confirmed_and_available_bounds_witness :
    (confirmedCount (run [Op.init "E" 2, Op.book 0 "u1"])
        (⟨0, "E", 2, 1⟩ : Event).id : Int) ≤ (⟨0, "E", 2, 1⟩ : Event).totalTickets ∧
    0 ≤ (⟨0, "E", 2, 1⟩ : Event).availableTickets ∧
    (⟨0, "E", 2, 1⟩ : Event).availableTickets ≤ (⟨0, "E", 2, 1⟩ : Event).totalTickets :=
  c6_confirmed_and_available_bounds (run [Op.init "E" 2, Op.book 0 "u1"])
    ⟨[Op.init "E" 2, Op.book 0 "u1"], rfl⟩ ⟨0, "E", 2, 1⟩ (by decide)

/-- C5: in every reachable state, the queue entry that a successful
`cancelBooking` promotes (the one `findEarliestWaiting` selects) has minimal
position among the event's still-waiting entries, and no still-waiting entry
of the event was enqueued strictly before it — so a requester who entered the
waiting state earlier is promoted no later. -/
theorem c5_promotion_is_fifo (s : DBState) (e : Nat) (u : String)
    (res : Booking × Option Booking) (s₂ : DBState) (wB : WLEntry)
    (hreach : Reachable s)
    (_hc : cancelBooking s e u = (.ok res, s₂))
    (hsel : findEarliestWaiting s e = some wB) :
    (∀ w ∈ s.waiting, activeEntry e w = true → wB.position ≤ w.position) ∧
    (∀ l1 wA l2, s.waiting = l1 ++ wA :: l2 → wB ∈ l2 → activeEntry e wA = true → False) := by
  have hs := reachable_inv s hreach
  have hsel2 : pickMinPos (s.waiting.filter (activeEntry e)) = some wB := hsel
  have hminle := pickMinPos_le hsel2
  have hmem := pickMinPos_mem hsel2
  rw [List.mem_filter] at hmem
  obtain ⟨hBmem, hBact⟩ := hmem
  have hBact2 := hBact
  unfold activeEntry at hBact2
  simp only [Bool.and_eq_true, beq_iff_eq] at hBact2
  constructor
  · intro w hw hact
    exact hminle w (List.mem_filter.mpr ⟨hw, hact⟩)
  · intro l1 wA l2 hsplit hBin hAact
    have hpw := hs.pw
    rw [hsplit, List.pairwise_append] at hpw
    obtain ⟨_, hpw2, _⟩ := hpw
    rw [List.pairwise_cons] at hpw2
    have hR := hpw2.1 wB hBin
    have hAact2 := hAact
    unfold activeEntry at hAact2
    simp only [Bool.and_eq_true, beq_iff_eq] at hAact2
    have hlt := hR (by rw [hAact2.1, hBact2.1]) hAact2.2 hBact2.2
    have hwAmem : wA ∈ s.waiting := by
      rw [hsplit]
      exact List.mem_append_right _ (List.mem_cons_self _ _)
    have hle := hminle wA (List.mem_filter.mpr ⟨hwAmem, hAact⟩)
    omega

/-- C5 witness: one ticket, `u1` confirmed, `u2` waiting, then `u1`
cancels. -/
theorem c5_promotion_is_fifo_witness :
    (∀ w ∈ (run [Op.init "E" 1, Op.book 0 "u1", Op.book 0 "u2"]).waiting,
      activeEntry 0 w = true →
      (⟨3, 0, "u2", 1, WStatus.waiting⟩ : WLEntry).position ≤ w.position) ∧
    (∀ l1 wA l2, (run [Op.init "E" 1, Op.book 0 "u1", Op.book 0 "u2"]).waiting
        = l1 ++ wA :: l2 →
      (⟨3, 0, "u2", 1, WStatus.waiting⟩ : WLEntry) ∈ l2 → activeEntry 0 wA = true → False) :=
  c5_promotion_is_fifo (run [Op.init "E" 1, Op.book 0 "u1", Op.book 0 "u2"]) 0 "u1"
    (⟨1, 0, "u1", BStatus.cancelled, none⟩, some ⟨2, 0, "u2", BStatus.confirmed, some 1⟩)
    ⟨[⟨0, "E", 1, 0⟩], [⟨1, 0, "u1", BStatus.cancelled, none⟩,
      ⟨2, 0, "u2", BStatus.confirmed, some 1⟩],
      [⟨3, 0, "u2", 1, WStatus.assigned⟩], 4⟩
    ⟨3, 0, "u2", 1, WStatus.waiting⟩
    ⟨[Op.init "E" 1, Op.book 0 "u1", Op.book 0 "u2"], rfl⟩ rfl rfl

/-- C3: a successful `cancelBooking` in a reachable state flips the
requester's confirmed booking to cancelled (both in the returned value and in
the stored row), returns the `(cancelledBooking, assignedBooking?)` pair, the
assigned booking is non-null exactly when an active waiting-queue entry
existed (a promotion occurred), and the event's `availableTickets` is
unchanged on promotion and incremented by one otherwise. -/
theorem c3_cancel_net_effect (s : DBState) (e : Nat) (u : String)
    (res : Booking × Option Booking) (s₂ : DBState)
    (hreach : Reachable s)
    (hc : cancelBooking s e u = (.ok res, s₂)) :
    res.1.status = BStatus.cancelled ∧ res.1.eventId = e ∧ res.1.userId = u ∧
    (∃ b ∈ s.bookings, b.id = res.1.id ∧ b.status = BStatus.confirmed) ∧
    (∃ b₂ ∈ s₂.bookings, b₂.id = res.1.id ∧ b₂.status = BStatus.cancelled) ∧
    res.2.isSome = (findEarliestWaiting s e).isSome ∧
    (∀ ev ∈ s.events, ev.id = e → ∀ ev₂ ∈ s₂.events, ev₂.id = e →
      (res.2 ≠ none → ev₂.availableTickets = ev.availableTickets) ∧
      (res.2 = none → ev₂.availableTickets = ev.availableTickets + 1)) := by
  have hs := reachable_inv s hreach
  rcases cancelBooking_cases s e u with ⟨msg, h⟩ | ⟨b, hfc, hrest⟩
  · rw [h] at hc
    injection hc with h1 _
    exact Except.noConfusion h1
  have hfc2 : s.bookings.find?
      (fun b2 => b2.eventId == e && b2.userId == u && b2.status == BStatus.confirmed)
      = some b := hfc
  have hb : b ∈ s.bookings := List.mem_of_find?_eq_some hfc2
  have hbp := List.find?_some hfc2
  simp only [Bool.and_eq_true, beq_iff_eq] at hbp
  obtain ⟨⟨hbe, hbu⟩, hbst⟩ := hbp
  have hnd1 : ((setBookingStatus s b.id BStatus.cancelled).bookings.map Booking.id).Nodup := by
    rw [setBookingStatus_map_id]; exact hs.bkNodup
  obtain ⟨l1, l2, hl, hl2, hne1, hne2⟩ :=
    setBookingStatus_decomp s b hb hs.bkNodup BStatus.cancelled
  have hbmem1 : ({ b with status := BStatus.cancelled } : Booking)
      ∈ (setBookingStatus s b.id BStatus.cancelled).bookings := by
    rw [hl2]
    exact List.mem_append_right _ (List.mem_cons_self _ _)
  rcases hrest with ⟨hevnone, h⟩ | ⟨⟨ev, hev⟩, hrest2⟩
  · rw [h] at hc
    injection hc with h1 _
    exact Except.noConfusion h1
  rcases hrest2 with ⟨hwnone, h⟩ | ⟨w, hwsome, hrest3⟩
  · -- no promotion
    rw [h] at hc
    injection hc with h1 h2
    have h1b := Except.ok.inj h1
    subst h2
    rw [← h1b]
    refine ⟨rfl, hbe, hbu, ⟨b, hb, rfl, hbst⟩, ?_, ?_, ?_⟩
    · exact ⟨{ b with status := BStatus.cancelled }, hbmem1, rfl, rfl⟩
    · have hwn : findEarliestWaiting s e = none := hwnone
      rw [hwn]
      rfl
    · intro ev1 hm1 hid1 ev2 hm2 hid2
      have hm2b : ev2 ∈ s.events.map (fun x2 => if x2.id == e
          then { x2 with availableTickets := x2.availableTickets + 1 } else x2) := hm2
      obtain ⟨x0, hm0, hca⟩ := mem_guard_map hm2b
      rcases hca with ⟨hid0, rfl⟩ | ⟨hid0, hxeq⟩
      · have hx0ev1 : ev1 = x0 :=
          List.inj_on_of_nodup_map hs.evNodup hm1 hm0 (by rw [hid1, hid0])
        constructor
        · intro hcontra
          exact absurd rfl hcontra
        · intro _
          show x0.availableTickets + 1 = ev1.availableTickets + 1
          rw [hx0ev1]
      · exfalso
        rw [hxeq] at hid2
        exact hid0 hid2
  · -- promotion
    have hw3 : pickMinPos (s.waiting.filter (activeEntry e)) = some w := hwsome
    have hwmem0 := pickMinPos_mem hw3
    rw [List.mem_filter] at hwmem0
    obtain ⟨hwmem, hwact⟩ := hwmem0
    have hwact2 := hwact
    unfold activeEntry at hwact2
    simp only [Bool.and_eq_true, beq_iff_eq] at hwact2
    obtain ⟨hwe, hws⟩ := hwact2
    obtain ⟨b0, hm0, hp0e, hp0u, hp0s⟩ := hs.wb w hwmem hws
    have hb0ne : b0 ≠ b := by
      intro hEq
      rw [hEq, hbst] at hp0s
      exact BStatus.noConfusion hp0s
    have hb0idne : b0.id ≠ b.id := fun hEq =>
      hb0ne (List.inj_on_of_nodup_map hs.bkNodup hm0 hb hEq)
    have hb0mem1 : b0 ∈ (setBookingStatus s b.id BStatus.cancelled).bookings :=
      mem_setBookingStatus_of_ne s b.id BStatus.cancelled b0 hm0 hb0idne
    rcases hrest3 with ⟨hfwnone, h⟩ | ⟨bw, hfw, h⟩
    · exfalso
      have hfw2 : (setBookingStatus s b.id BStatus.cancelled).bookings.find?
          (fun b2 => b2.eventId == e && b2.userId == w.userId && b2.status == BStatus.waiting)
          = none := hfwnone
      rw [List.find?_eq_none] at hfw2
      exact hfw2 b0 hb0mem1 (by simp [hp0e, hp0u, hp0s, hwe])
    have hfw3 : (setBookingStatus s b.id BStatus.cancelled).bookings.find?
        (fun b2 => b2.eventId == e && b2.userId == w.userId && b2.status == BStatus.waiting)
        = some bw := hfw
    have hbwmem : bw ∈ (setBookingStatus s b.id BStatus.cancelled).bookings :=
      List.mem_of_find?_eq_some hfw3
    have hbwp := List.find?_some hfw3
    simp only [Bool.and_eq_true, beq_iff_eq] at hbwp
    obtain ⟨⟨hbwe, hbwu⟩, hbws⟩ := hbwp
    rw [h] at hc
    injection hc with h1 h2
    have h1b := Except.ok.inj h1
    subst h2
    rw [← h1b]
    have hbnebw : ({ b with status := BStatus.cancelled } : Booking) ≠ bw := by
      intro hEq
      rw [← hEq] at hbws
      exact BStatus.noConfusion hbws
    have hbidnebw : ({ b with status := BStatus.cancelled } : Booking).id ≠ bw.id :=
      fun hEq => hbnebw (List.inj_on_of_nodup_map hnd1 hbmem1 hbwmem hEq)
    have hbmem4 : ({ b with status := BStatus.cancelled } : Booking)
        ∈ (setBookingStatus (markAssigned (incAvailable
          (setBookingStatus s b.id BStatus.cancelled) e) e w.userId)
          bw.id BStatus.confirmed).bookings := by
      have hbmem3 : ({ b with status := BStatus.cancelled } : Booking)
          ∈ (markAssigned (incAvailable
            (setBookingStatus s b.id BStatus.cancelled) e) e w.userId).bookings := hbmem1
      exact mem_setBookingStatus_of_ne _ bw.id BStatus.confirmed _ hbmem3 hbidnebw
    refine ⟨rfl, hbe, hbu, ⟨b, hb, rfl, hbst⟩, ?_, ?_, ?_⟩
    · exact ⟨{ b with status := BStatus.cancelled }, hbmem4, rfl, rfl⟩
    · have hwn : findEarliestWaiting s e = some w := hwsome
      rw [hwn]
      rfl
    · intro ev1 hm1 hid1 ev2 hm2 hid2
      have hm2b : ev2 ∈ (s.events.map (fun x2 => if x2.id == e
          then { x2 with availableTickets := x2.availableTickets + 1 } else x2)).map
          (fun x2 => if x2.id == e
          then { x2 with availableTickets := x2.availableTickets - 1 } else x2) := hm2
      obtain ⟨x1, hm1b, hca1⟩ := mem_guard_map hm2b
      obtain ⟨x0, hm0b, hca0⟩ := mem_guard_map hm1b
      rcases hca1 with ⟨hid1b, rfl⟩ | ⟨hid1b, hxeq1⟩
      · rcases hca0 with ⟨hid0b, rfl⟩ | ⟨hid0b, hxeq0⟩
        · have hx0ev1 : ev1 = x0 :=
            List.inj_on_of_nodup_map hs.evNodup hm1 hm0b (by rw [hid1, hid0b])
          constructor
          · intro _
            show x0.availableTickets + 1 - 1 = ev1.availableTickets
            rw [hx0ev1]
            omega
          · intro hcontra
            exact Option.noConfusion hcontra
        · exfalso
          rw [hxeq0] at hid1b
          exact hid0b hid1b
      · exfalso
        rw [hxeq1] at hid2
        exact hid1b hid2

/-- C3 witness: one ticket, `a` confirmed, then `a` cancels with an empty
queue (no promotion, `availableTickets` goes back up by one). -/
theorem c3_cancel_net_effect_witness :
    ((⟨1, 0, "a", BStatus.cancelled, none⟩ : Booking),
      (none : Option Booking)).1.status = BStatus.cancelled ∧
    ((⟨1, 0, "a", BStatus.cancelled, none⟩ : Booking),
      (none : Option Booking)).1.eventId = 0 ∧
    ((⟨1, 0, "a", BStatus.cancelled, none⟩ : Booking),
      (none : Option Booking)).1.userId = "a" ∧
    (∃ b ∈ (run [Op.init "C" 1, Op.book 0 "a"]).bookings,
      b.id = ((⟨1, 0, "a", BStatus.cancelled, none⟩ : Booking),
        (none : Option Booking)).1.id ∧ b.status = BStatus.confirmed) ∧
    (∃ b₂ ∈ (⟨[⟨0, "C", 1, 1⟩], [⟨1, 0, "a", BStatus.cancelled, none⟩],
        [], 2⟩ : DBState).bookings,
      b₂.id = ((⟨1, 0, "a", BStatus.cancelled, none⟩ : Booking),
        (none : Option Booking)).1.id ∧ b₂.status = BStatus.cancelled) ∧
    ((⟨1, 0, "a", BStatus.cancelled, none⟩ : Booking), (none : Option Booking)).2.isSome
      = (findEarliestWaiting (run [Op.init "C" 1, Op.book 0 "a"]) 0).isSome ∧
    (∀ ev ∈ (run [Op.init "C" 1, Op.book 0 "a"]).events, ev.id = 0 →
      ∀ ev₂ ∈ (⟨[⟨0, "C", 1, 1⟩], [⟨1, 0, "a", BStatus.cancelled, none⟩],
        [], 2⟩ : DBState).events, ev₂.id = 0 →
      (((⟨1, 0, "a", BStatus.cancelled, none⟩ : Booking),
          (none : Option Booking)).2 ≠ none →
        ev₂.availableTickets = ev.availableTickets) ∧
      (((⟨1, 0, "a", BStatus.cancelled, none⟩ : Booking),
          (none : Option Booking)).2 = none →
        ev₂.availableTickets = ev.availableTickets + 1)) :=
  c3_cancel_net_effect (run [Op.init "C" 1, Op.book 0 "a"]) 0 "a"
    (⟨1, 0, "a", BStatus.cancelled, none⟩, none)
    ⟨[⟨0, "C", 1, 1⟩], [⟨1, 0, "a", BStatus.cancelled, none⟩], [], 2⟩
    ⟨[Op.init "C" 1, Op.book 0 "a"], rfl⟩ rfl

end TicketSystem
